import Mathlib

set_option autoImplicit false

/-
Verification of the runos CLI manifest-driven command engine.

Go strings are modelled as lists of characters (`Str`), so that all string
operations (substring search, replacement, splitting) are structural and
executable.  Go `map[string]T` values are modelled as association lists in
which assignment replaces the existing binding for a key.  JSON values
(`interface\x7b\x7d` decoded from JSON) are modelled by the inductive `JValue`;
JSON numbers are modelled as integers, which covers every value the engine
manipulates.  External collaborators (config loading, the auth token
provider, the HTTP transport, the YAML/JSON codecs) are supplied through an
explicit environment `Env` of oracle functions, as the spec treats them as
interfaces only.
-/

namespace RunosCli

/-- Go strings, modelled as lists of characters. -/
abbrev Str := List Char

/-- Convenience coercion from Lean string literals to `Str`. -/
def lit (s : String) : Str := s.data

/-- The opening brace character, written via its code point. -/
def lbrace : Char := '\x7b'

/-- The closing brace character, written via its code point. -/
def rbrace : Char := '\x7d'

/-- Go `strings.Contains s pat`. -/
def containsSubstr : Str → Str → Bool
  | [], pat => pat.isEmpty
  | c :: rest, pat => pat.isPrefixOf (c :: rest) || containsSubstr rest pat

/-- Fuel-indexed worker for `replaceAll`.  Each step either copies one
character or consumes a (non-empty) pattern occurrence, so fuel equal to the
length of the subject string is always sufficient. -/
def replaceAllFuel (pat rep : Str) : Nat → Str → Str
  | 0, s => s
  | _ + 1, [] => []
  | n + 1, c :: rest =>
    if pat ≠ [] ∧ pat.isPrefixOf (c :: rest) then
      rep ++ replaceAllFuel pat rep n ((c :: rest).drop pat.length)
    else
      c :: replaceAllFuel pat rep n rest

/-- Go `strings.ReplaceAll s pat rep` (equivalently `strings.Replace` with
count `-1`).  The engine never calls it with an empty pattern; for an empty
pattern this model returns the subject unchanged. -/
def replaceAll (s pat rep : Str) : Str := replaceAllFuel pat rep s.length s

/-- Go `strings.SplitN tag sep 2`, presented as: the part before the first
occurrence of `sep` and the part after it, or `none` when `sep` does not
occur. -/
def splitFirst (sep : Char) : Str → Option (Str × Str)
  | [] => none
  | c :: rest =>
    if c = sep then some ([], rest)
    else
      match splitFirst sep rest with
      | none => none
      | some (a, b) => some (c :: a, b)

/-- Whitespace recognizer used by Go `strings.TrimSpace` (ASCII subset; the
protocol lines under study contain no exotic whitespace). -/
def isSpaceChar (c : Char) : Bool :=
  c = ' ' || c = '\t' || c = '\n' || c = '\r' || c = '\x0b' || c = '\x0c'

/-- Go `strings.TrimSpace`. -/
def trimSpace (s : Str) : Str :=
  ((s.dropWhile isSpaceChar).reverse.dropWhile isSpaceChar).reverse

/-- Decimal rendering of a natural number, as Go `fmt.Sprintf` with `%d`. -/
def natToStr (n : Nat) : Str := (Nat.repr n).data

/-- Decoded JSON values (Go `interface\x7b\x7d` after `json.Unmarshal`).
JSON numbers are modelled as integers. -/
inductive JValue where
  | null
  | bool (b : Bool)
  | num (n : Int)
  | str (s : Str)
  | arr (xs : List JValue)
  | obj (fields : List (Str × JValue))

instance : Inhabited JValue := ⟨JValue.null⟩

/-- Go `map[string]interface\x7b\x7d`, as an association list. -/
abbrev AMap := List (Str × JValue)

/-- Lookup in an association-list map (`m[k]` with the `ok` flag given by
`Option`). -/
def amapFind? : AMap → Str → Option JValue
  | [], _ => none
  | (k2, v) :: rest, k => if k2 = k then some v else amapFind? rest k

/-- Assignment `m[k] = v` in an association-list map: replaces the existing
binding for `k` if present, otherwise appends. -/
def amapInsert : AMap → Str → JValue → AMap
  | [], k, v => [(k, v)]
  | (k2, v2) :: rest, k, v =>
    if k2 = k then (k, v) :: rest else (k2, v2) :: amapInsert rest k v

theorem amapFind?_insert (m : AMap) (k k2 : Str) (v : JValue) :
    amapFind? (amapInsert m k v) k2 = if k = k2 then some v else amapFind? m k2 := by
  induction m with
  | nil => simp [amapInsert, amapFind?]
  | cons p rest ih =>
    obtain ⟨pk, pv⟩ := p
    by_cases h : pk = k
    · subst h
      simp only [amapInsert, if_pos rfl, amapFind?]
      by_cases h2 : pk = k2 <;> simp [h2]
    · simp only [amapInsert, if_neg h, amapFind?]
      by_cases h2 : pk = k2
      · subst h2
        have : ¬ k = pk := fun hh => h hh.symm
        simp [this, amapFind?]
      · simp [h2, ih]

/-- Manifest `Flag` (a boolean switch), from `internal/manifest` (`Flag`). -/
structure Flag where
  name : Str
  description : Str
  default : Bool

/-- Manifest `Field`, from `internal/manifest` (`Field`).  `default` is the
optional declared default (`nil` in Go becomes `none`). -/
structure Field where
  name : Str
  type : Str
  description : Str
  required : Bool
  default : Option JValue
  enum : List Str
  format : Str
  positional : Bool

/-- Manifest `Input`: ordered fields and boolean-only flags. -/
structure Input where
  fields : List Field
  flags : List Flag

/-- Manifest `Command`: one operation.  The `Output` display hint is consumed
only by the external output formatter and is not modelled. -/
structure Command where
  command : Str
  description : Str
  endpoint : Str
  method : Str
  input : Option Input
  returnsJob : Bool

/-- The manifest: a version and an ordered command list. -/
structure Manifest where
  version : Str
  commands : List Command

/-- Runtime configuration, from `internal/config` (`Config`).  `envClusterID`
models the `RUNOS_CLUSTER_ID` environment variable consulted by
`GetDefaultClusterID`; the auth-related fields are behind the external auth
collaborator and are not modelled individually. -/
structure Config where
  accountID : Str
  defaultClusterID : Str
  envClusterID : Str

/-- Go `Config.GetDefaultClusterID`: the environment variable wins over the
configured default. -/
def Config.getDefaultClusterID (c : Config) : Str :=
  if c.envClusterID ≠ [] then c.envClusterID else c.defaultClusterID

/-- An HTTP response as seen after `io.ReadAll` of the body:
`resp.StatusCode`, `resp.Status` and the body bytes. -/
structure HttpResp where
  statusCode : Nat
  status : Str
  body : Str

/-- Outcome of one HTTP round trip: transport failure (`httpClient.Do`
error), body read failure (`io.ReadAll` error), or a response. -/
inductive HttpOutcome where
  | transportErr (e : Str)
  | readErr (e : Str)
  | resp (r : HttpResp)

/-- One HTTP request as assembled by `doRequestWithCID`: `body = none` means
no body reader was attached; `cid = []` means no `X-CID` header is set. -/
structure HttpCall where
  method : Str
  url : Str
  body : Option AMap
  token : Str
  cid : Str

/-- The cobra flag set visible to one leaf command invocation:
`changed` is `Flags().Changed`, and the typed getters are `GetString`,
`GetInt`, `GetStringSlice`, `GetBool` (each returns the registered default or
zero value when the flag was not changed). -/
structure FlagSet where
  changed : Str → Bool
  getString : Str → Str
  getInt : Str → Int
  getStringSlice : Str → List Str
  getBool : Str → Bool

/-- JSON-RPC request (`mcp.Request`): `params` is the raw message, `none`
when absent. -/
structure Request where
  jsonrpc : Str
  id : Option JValue
  method : Str
  params : Option JValue

/-- Oracle environment for the external collaborators: config loading, the
auth token provider, the HTTP transport, the YAML bulk-input reader and the
JSON codecs.  All executor functions are deterministic given an `Env`. -/
structure Env where
  configLoad : Except Str Config
  authToken : Config → Except Str Str
  http : HttpCall → HttpOutcome
  parseJson : Str → Option JValue
  marshalIndent : JValue → Str
  loadYAMLFile : Str → Except Str AMap
  unmarshalRequest : Str → Except Str Request

/-- Go `fmt.Sprintf` with verb `%v` applied to a decoded JSON value, as used
on positional argument values in `CommandExecutor.buildEndpoint`.  Positional
values are strings or scalars; composite values are rendered by a fixed
marker since they never occur in that position. -/
def sprintfV : JValue → Str
  | .null => lit "<nil>"
  | .bool true => lit "true"
  | .bool false => lit "false"
  | .num n => (toString n).data
  | .str s => s
  | .arr _ => lit "[slice]"
  | .obj _ => lit "[map]"

namespace CommandExecutor

/-- Positional-placeholder substitution loop of `CommandExecutor.buildEndpoint`
(part_002 lines 371-382): for each positional field whose name is bound in the
argument map, both placeholder styles are replaced by the same value. -/
def substPositional (args : AMap) : List Field → Str → Str
  | [], r => r
  | f :: rest, r =>
    if f.positional then
      match amapFind? args f.name with
      | some v =>
        let valStr := sprintfV v
        substPositional args rest
          (replaceAll (replaceAll r (lbrace :: (f.name ++ [rbrace])) valStr)
            (':' :: f.name) valStr)
      | none => substPositional args rest r
    else substPositional args rest r

/-- Go `CommandExecutor.buildEndpoint` (part_002 lines 344-385): substitute
`:aid` from the config account id, `:cid` from the config default cluster id,
then the positional field placeholders, and prepend the base URL. -/
def buildEndpoint (env : Env) (baseURL endpoint : Str) (args : AMap)
    (cmdDef : Command) : Except Str Str :=
  match env.configLoad with
  | .error e => .error (lit "failed to load config: " ++ e)
  | .ok cfg =>
    match (if containsSubstr endpoint (lit ":aid") then
            (if cfg.accountID = [] then
              .error (lit "account ID not set: run runos login first")
            else .ok (replaceAll endpoint (lit ":aid") cfg.accountID))
          else .ok endpoint : Except Str Str) with
    | .error e => .error e
    | .ok r1 =>
      match (if containsSubstr r1 (lit ":cid") then
              (let cid := cfg.getDefaultClusterID
               if cid = [] then
                .error (lit "cluster ID required: set default with runos config set cid <cluster-id>")
              else .ok (replaceAll r1 (lit ":cid") cid))
            else .ok r1 : Except Str Str) with
      | .error e => .error e
      | .ok r2 =>
        let r3 := match cmdDef.input with
          | none => r2
          | some inp => substPositional args inp.fields r2
        .ok (baseURL ++ r3)

/-- Go `CommandExecutor.buildBody` (part_002 lines 387-420): only POST, PUT
and PATCH get a body; each non-positional field contributes its argument
value, else its declared default, else nothing; each flag contributes its
argument value, else its declared default. -/
def buildBody (args : AMap) (cmdDef : Command) : AMap :=
  if ¬(cmdDef.method = lit "POST" ∨ cmdDef.method = lit "PUT" ∨
      cmdDef.method = lit "PATCH") then
    []
  else
    match cmdDef.input with
    | none => []
    | some inp =>
      let body := inp.fields.foldl (fun b f =>
        if f.positional then b
        else
          match amapFind? args f.name with
          | some v => amapInsert b f.name v
          | none =>
            match f.default with
            | some d => amapInsert b f.name d
            | none => b) []
      inp.flags.foldl (fun b fl =>
        match amapFind? args fl.name with
        | some v => amapInsert b fl.name v
        | none => amapInsert b fl.name (.bool fl.default)) body

/-- Go `CommandExecutor.ExecuteRaw` (part_002 lines 210-259), instrumented:
the second component records the HTTP calls issued, so that theorems can
state that a failure happens before any network call.  The result map carries
`status`, `status_text` and the (JSON-decoded when possible) body, and is
pretty-printed; a backend error status is not treated as a failure. -/
def ExecuteRawT (env : Env) (baseURL method endpoint : Str) (body : AMap)
    (cid : Str) : Except Str Str × List HttpCall :=
  match env.configLoad with
  | .error e => (.error (lit "failed to load config: " ++ e), [])
  | .ok cfg =>
    match env.authToken cfg with
    | .error _ => (.error (lit "authentication required: run runos login first"), [])
    | .ok token =>
      let url := baseURL ++ endpoint
      let call : HttpCall :=
        { method := method, url := url,
          body := if body.isEmpty then none else some body,
          token := token, cid := cid }
      match env.http call with
      | .transportErr e => (.error (lit "request failed: " ++ e), [call])
      | .readErr e => (.error (lit "failed to read response: " ++ e), [call])
      | .resp r =>
        let bodyJ : JValue :=
          match env.parseJson r.body with
          | none => .str r.body
          | some j => j
        let result : JValue := .obj
          [(lit "status", .num (Int.ofNat r.statusCode)),
           (lit "status_text", .str r.status),
           (lit "body", bodyJ)]
        (.ok (env.marshalIndent result), [call])

/-- Go `CommandExecutor.ExecuteRaw`: the result component of the
instrumented version. -/
def ExecuteRaw (env : Env) (baseURL method endpoint : Str) (body : AMap)
    (cid : Str) : Except Str Str :=
  (ExecuteRawT env baseURL method endpoint body cid).1

/-- Go `CommandExecutor.Execute` (part_002 lines 262-329), instrumented with
the list of HTTP calls issued: map the tool name back to a command path, look
the command up, build endpoint and body, perform the request (with no `X-CID`
header), fail on status `>= 400`, else pretty-print the response. -/
def ExecuteT (env : Env) (m : Manifest) (baseURL toolName : Str)
    (args : AMap) : Except Str Str × List HttpCall :=
  let cmdPath := replaceAll toolName (lit "_") (lit "/")
  match m.commands.find? (fun c => c.command = cmdPath) with
  | none => (.error (lit "unknown command: " ++ toolName), [])
  | some cmdDef =>
    match env.configLoad with
    | .error e => (.error (lit "failed to load config: " ++ e), [])
    | .ok cfg =>
      match env.authToken cfg with
      | .error _ => (.error (lit "authentication required: run runos login first"), [])
      | .ok token =>
        match buildEndpoint env baseURL cmdDef.endpoint args cmdDef with
        | .error e => (.error e, [])
        | .ok endpoint =>
          let body := buildBody args cmdDef
          let call : HttpCall :=
            { method := cmdDef.method, url := endpoint,
              body := if body.isEmpty then none else some body,
              token := token, cid := [] }
          match env.http call with
          | .transportErr e => (.error (lit "request failed: " ++ e), [call])
          | .readErr e => (.error (lit "failed to read response: " ++ e), [call])
          | .resp r =>
            if r.statusCode ≥ 400 then
              (.error (lit "API error (" ++ natToStr r.statusCode ++ lit "): " ++ r.body),
               [call])
            else
              match env.parseJson r.body with
              | none => (.ok r.body, [call])
              | some j => (.ok (env.marshalIndent j), [call])

/-- Go `CommandExecutor.Execute`: the result component of the instrumented
version. -/
def Execute (env : Env) (m : Manifest) (baseURL toolName : Str)
    (args : AMap) : Except Str Str :=
  (ExecuteT env m baseURL toolName args).1

end CommandExecutor

/-- Go `parseKeyValueTags` (dynacmd/builder.go lines 427-443): each token is
split at the first `:` into a two-entry map with keys `key` and `value`, or a
one-entry map with key `key` when the token has no colon. -/
def parseKeyValueTags (tags : List Str) : List (List (Str × Str)) :=
  tags.map (fun tag =>
    match splitFirst ':' tag with
    | some (k, v) => [(lit "key", k), (lit "value", v)]
    | none => [(lit "key", tag)])

/-- Conversion of the `parseKeyValueTags` result (a Go `[]map[string]string`)
to its decoded-JSON form, as it appears inside the argument map and body. -/
def kvTagsJson (ts : List (List (Str × Str))) : JValue :=
  .arr (ts.map (fun m => .obj (m.map (fun p => (p.1, .str p.2)))))

namespace Executor

/-- Positional-placeholder substitution loop of `Executor.buildEndpoint`
(dynacmd/builder.go lines 372-384): walk the declared fields, pairing each
positional field with the next unconsumed CLI argument; both placeholder
styles are replaced by the same value; a positional field with no remaining
argument is skipped. -/
def substFields : List Field → List Str → Str → Str
  | [], _, r => r
  | f :: rest, args, r =>
    if f.positional then
      match args with
      | [] => substFields rest [] r
      | v :: argsRest =>
        substFields rest argsRest
          (replaceAll (replaceAll r (lbrace :: (f.name ++ [rbrace])) v)
            (':' :: f.name) v)
    else substFields rest args r

/-- Go `Executor.buildEndpoint` (dynacmd/builder.go lines 352-387):
substitute `:aid` from the config account id, `:cid` from the resolved
cluster id (flag or config default), then the positional field placeholders
from the CLI arguments, and prepend the base URL. -/
def buildEndpoint (baseURL endpoint : Str) (args : List Str)
    (cmdDef : Command) (cfg : Config) (cid : Str) : Except Str Str :=
  match (if containsSubstr endpoint (lit ":aid") then
          (if cfg.accountID = [] then
            .error (lit "account ID not set: run runos login first")
          else .ok (replaceAll endpoint (lit ":aid") cfg.accountID))
        else .ok endpoint : Except Str Str) with
  | .error e => .error e
  | .ok r1 =>
    match (if containsSubstr r1 (lit ":cid") then
            (if cid = [] then
              .error (lit "cluster ID required: use --cid flag or set default with runos config set cid <cluster-id>")
            else .ok (replaceAll r1 (lit ":cid") cid))
          else .ok r1 : Except Str Str) with
    | .error e => .error e
    | .ok r2 =>
      let r3 := match cmdDef.input with
        | none => r2
        | some inp => substFields inp.fields args r2
      .ok (baseURL ++ r3)

/-- Go `Executor.collectInput` (dynacmd/builder.go lines 287-350), the
layered argument resolution: declared defaults first (skipping positional
fields), then the YAML bulk-input file named by the `file` flag, then the
explicitly changed flags, coerced by the declared field type (with the
`key_value` array format transformed by `parseKeyValueTags`), then the
explicitly changed boolean flags. -/
def collectInput (env : Env) (flags : FlagSet) (cmdDef : Command) :
    Except Str AMap :=
  match cmdDef.input with
  | none => .ok []
  | some inp =>
    let r0 := inp.fields.foldl (fun m f =>
      match f.default with
      | some d => if ¬f.positional then amapInsert m f.name d else m
      | none => m) []
    let r1 := inp.flags.foldl (fun m fl => amapInsert m fl.name (.bool fl.default)) r0
    let filePath := flags.getString (lit "file")
    match (if filePath = [] then .ok r1 else
            match env.loadYAMLFile filePath with
            | .error e => .error (lit "failed to load file: " ++ e)
            | .ok fileData =>
              .ok (fileData.foldl (fun m p => amapInsert m p.1 p.2) r1) :
          Except Str AMap) with
    | .error e => .error e
    | .ok r2 =>
      let r3 := inp.fields.foldl (fun m f =>
        if f.positional then m
        else if flags.changed f.name then
          (if f.type = lit "string" then
            amapInsert m f.name (.str (flags.getString f.name))
          else if f.type = lit "integer" then
            amapInsert m f.name (.num (flags.getInt f.name))
          else if f.type = lit "array" then
            (let val := flags.getStringSlice f.name
             if f.format = lit "key_value" then
              amapInsert m f.name (kvTagsJson (parseKeyValueTags val))
             else amapInsert m f.name (.arr (val.map .str)))
          else m)
        else m) r2
      let r4 := inp.flags.foldl (fun m fl =>
        if flags.changed fl.name then amapInsert m fl.name (.bool (flags.getBool fl.name))
        else m) r3
      .ok r4

/-- Go `Executor.Execute` (dynacmd/builder.go lines 219-272), instrumented
with the list of HTTP calls issued: load config, obtain a token, resolve the
cluster id from the `cid` flag or the config default, collect the layered
input, build the endpoint, perform the request (`doRequest` attaches the body
only for POST/PUT/PATCH and only when non-empty), and fail on status
`>= 400`; the output formatting is external. -/
def ExecuteT (env : Env) (baseURL : Str) (flags : FlagSet) (args : List Str)
    (cmdDef : Command) : Except Str Unit × List HttpCall :=
  match env.configLoad with
  | .error e => (.error (lit "failed to load config: " ++ e), [])
  | .ok cfg =>
    match env.authToken cfg with
    | .error _ => (.error (lit "authentication required: run runos login first"), [])
    | .ok token =>
      let cidFlag := flags.getString (lit "cid")
      let cid := if cidFlag = [] then cfg.getDefaultClusterID else cidFlag
      match collectInput env flags cmdDef with
      | .error e => (.error (lit "failed to collect input: " ++ e), [])
      | .ok body =>
        match buildEndpoint baseURL cmdDef.endpoint args cmdDef cfg cid with
        | .error e => (.error e, [])
        | .ok url =>
          let attach := ¬body.isEmpty ∧
            (cmdDef.method = lit "POST" ∨ cmdDef.method = lit "PUT" ∨
              cmdDef.method = lit "PATCH")
          let call : HttpCall :=
            { method := cmdDef.method, url := url,
              body := if attach then some body else none,
              token := token, cid := [] }
          match env.http call with
          | .transportErr e => (.error (lit "request failed: " ++ e), [call])
          | .readErr e => (.error (lit "failed to read response: " ++ e), [call])
          | .resp r =>
            if r.statusCode ≥ 400 then
              (.error (lit "API error (" ++ natToStr r.statusCode ++ lit "): " ++ r.body),
               [call])
            else (.ok (), [call])

/-- Go `Executor.Execute`: the result component of the instrumented
version. -/
def Execute (env : Env) (baseURL : Str) (flags : FlagSet) (args : List Str)
    (cmdDef : Command) : Except Str Unit :=
  (ExecuteT env baseURL flags args cmdDef).1

end Executor

/-- JSON-RPC error object (`mcp.Error`). -/
structure RpcError where
  code : Int
  message : Str
  data : Option JValue

/-- One content block of a tool result (`mcp.ContentBlock`). -/
structure ContentBlock where
  type : Str
  text : Str

/-- Tool call result (`mcp.CallToolResult`). -/
structure CallToolResult where
  content : List ContentBlock
  isError : Bool

/-- Server identity (`mcp.ServerInfo`). -/
structure ServerInfo where
  name : Str
  version : Str

/-- Tools capability advertisement (`mcp.ToolsCapability`). -/
structure ToolsCapability where
  listChanged : Bool

/-- Capabilities advertisement (`mcp.Capabilities`). -/
structure Capabilities where
  tools : Option ToolsCapability

/-- Initialize result (`mcp.InitializeResult`). -/
structure InitializeResult where
  protocolVersion : Str
  capabilities : Capabilities
  serverInfo : ServerInfo

/-- One JSON-schema property (`mcp.Property`). -/
structure Property where
  type : Str
  description : Str
  enum : List Str
  default : Option JValue

/-- Tool input schema (`mcp.InputSchema`); the `properties` Go map is an
association list built by assignment. -/
structure InputSchema where
  type : Str
  properties : List (Str × Property)
  required : List Str

/-- A published tool (`mcp.Tool`). -/
structure Tool where
  name : Str
  description : Str
  inputSchema : InputSchema

/-- Assignment into the `properties` map of an input schema. -/
def propInsert : List (Str × Property) → Str → Property → List (Str × Property)
  | [], k, v => [(k, v)]
  | (k2, v2) :: rest, k, v =>
    if k2 = k then (k, v) :: rest else (k2, v2) :: propInsert rest k v

/-- The payload of a successful JSON-RPC response (Go uses `interface\x7b\x7d`;
the server only ever stores these four shapes). -/
inductive RpcResult where
  | initResult (r : InitializeResult)
  | toolsList (tools : List Tool)
  | callTool (r : CallToolResult)
  | emptyObj

/-- JSON-RPC response (`mcp.Response`). -/
structure Response where
  jsonrpc : Str
  id : Option JValue
  result : Option RpcResult
  error : Option RpcError

/-- Parameters of a `tools/call` request (`mcp.CallToolParams`). -/
structure CallToolParams where
  name : Str
  arguments : AMap

/-- Go `json.Unmarshal(req.Params, &params)` for `CallToolParams`: an absent
raw message or a non-object value is a parse failure (except JSON `null`,
which leaves the zero value); inside an object, `name` must be a string if
present and `arguments` must be an object or `null` if present; missing keys
leave zero values. -/
def parseCallToolParams : Option JValue → Except Str CallToolParams
  | none => .error (lit "unexpected end of JSON input")
  | some .null => .ok { name := [], arguments := [] }
  | some (.obj fields) =>
    match (match amapFind? fields (lit "name") with
           | none => .ok []
           | some .null => .ok []
           | some (.str s) => .ok s
           | some _ => .error (lit "json: cannot unmarshal value into field name") :
           Except Str Str) with
    | .error e => .error e
    | .ok nm =>
      match (match amapFind? fields (lit "arguments") with
             | none => .ok []
             | some .null => .ok []
             | some (.obj o) => .ok o
             | some _ => .error (lit "json: cannot unmarshal value into field arguments") :
             Except Str AMap) with
      | .error e => .error e
      | .ok args => .ok { name := nm, arguments := args }
  | some _ => .error (lit "json: cannot unmarshal value into CallToolParams")

/-- The MCP server (`mcp.Server`): the manifest, the executor base URL and
the server version. -/
structure Server where
  manifest : Manifest
  baseURL : Str
  version : Str

namespace Server

/-- Go type assertion `v.(string)` on a decoded JSON value. -/
def asString : Option JValue → Option Str
  | some (.str s) => some s
  | _ => none

/-- Go `Server.handleAPIRequest` (server.go lines 247-266), instrumented with
the HTTP calls issued: `method` and `endpoint` must be present, string-typed
and non-empty; `cid` is read with the error ignored (an absent or non-string
`cid` becomes the empty string); `body` must be an object to be forwarded. -/
def handleAPIRequestT (s : Server) (env : Env) (args : AMap) :
    Except Str Str × List HttpCall :=
  match asString (amapFind? args (lit "method")) with
  | none => (.error (lit "method is required"), [])
  | some method =>
    if method = [] then (.error (lit "method is required"), [])
    else
      match asString (amapFind? args (lit "endpoint")) with
      | none => (.error (lit "endpoint is required"), [])
      | some endpoint =>
        if endpoint = [] then (.error (lit "endpoint is required"), [])
        else
          let cid := (asString (amapFind? args (lit "cid"))).getD []
          let body : AMap :=
            match amapFind? args (lit "body") with
            | some (.obj o) => o
            | _ => []
          CommandExecutor.ExecuteRawT env s.baseURL method endpoint body cid

/-- Go `Server.handleAPIRequest`: the result component of the instrumented
version. -/
def handleAPIRequest (s : Server) (env : Env) (args : AMap) : Except Str Str :=
  (handleAPIRequestT s env args).1

/-- The dispatch step inside `Server.handleToolsCall` (server.go lines
220-225): the built-in `api_request` tool is handled directly, anything else
goes to the command executor. -/
def dispatchToolCall (s : Server) (env : Env) (params : CallToolParams) :
    Except Str Str :=
  if params.name = lit "api_request" then
    handleAPIRequest s env params.arguments
  else
    CommandExecutor.Execute env s.manifest s.baseURL params.name params.arguments

/-- Go `Server.handleToolsCall` (server.go lines 203-245): malformed
parameters produce the protocol error `-32602`; a dispatch failure produces a
result with a single text block and the `isError` flag; a dispatch success
produces a result with a single text block and no error flag. -/
def handleToolsCall (s : Server) (env : Env) (req : Request) : Response :=
  match parseCallToolParams req.params with
  | .error e =>
    { jsonrpc := lit "2.0", id := req.id, result := none,
      error := some { code := -32602, message := lit "Invalid params",
                      data := some (.str e) } }
  | .ok params =>
    match dispatchToolCall s env params with
    | .error e =>
      { jsonrpc := lit "2.0", id := req.id,
        result := some (.callTool
          { content := [{ type := lit "text", text := e }], isError := true }),
        error := none }
    | .ok result =>
      { jsonrpc := lit "2.0", id := req.id,
        result := some (.callTool
          { content := [{ type := lit "text", text := result }], isError := false }),
        error := none }

/-- Go `Server.handleInitialize` (server.go lines 175-190). -/
def handleInitialize (s : Server) (req : Request) : Response :=
  { jsonrpc := lit "2.0", id := req.id,
    result := some (.initResult
      { protocolVersion := lit "2024-11-05",
        capabilities := { tools := some { listChanged := false } },
        serverInfo := { name := lit "runos", version := s.version } }),
    error := none }

/-- Go `Server.mapType` (server.go lines 348-357). -/
def mapType (t : Str) : Str :=
  if t = lit "integer" then lit "number"
  else if t = lit "array" then lit "array"
  else lit "string"

/-- The built-in `api_request` tool added first by `Server.buildTools`
(server.go lines 272-298). -/
def apiRequestTool : Tool :=
  { name := lit "api_request",
    description := lit "Make an arbitrary HTTP request to the RunOS API. Use this to test endpoints, debug API calls, or make requests not covered by other tools. Returns status code and response body.",
    inputSchema :=
      { type := lit "object",
        properties :=
          [(lit "method",
            { type := lit "string",
              description := lit "HTTP method (GET, POST, PUT, PATCH, DELETE)",
              enum := [lit "GET", lit "POST", lit "PUT", lit "PATCH", lit "DELETE"],
              default := none }),
           (lit "endpoint",
            { type := lit "string",
              description := lit "API endpoint path (e.g., /api/backend/v1/osi/instance/valkey-abc123)",
              enum := [], default := none }),
           (lit "body",
            { type := lit "object",
              description := lit "Request body as JSON object (for POST/PUT/PATCH requests)",
              enum := [], default := none }),
           (lit "cid",
            { type := lit "string",
              description := lit "Cluster ID for the X-CID header (required for most API calls)",
              enum := [], default := none })],
        required := [lit "method", lit "endpoint", lit "cid"] } }

/-- The manifest-derived tool for one command, from the loop body of
`Server.buildTools` (server.go lines 300-343): the name is the command path
with `/` replaced by `_`; each field becomes a property with the mapped type,
its enum and default when present; each flag becomes a boolean property; the
required list collects exactly the required fields. -/
def buildTool (cmd : Command) : Tool :=
  let base : Tool :=
    { name := replaceAll cmd.command (lit "/") (lit "_"),
      description := cmd.description,
      inputSchema := { type := lit "object", properties := [], required := [] } }
  match cmd.input with
  | none => base
  | some inp =>
    let props1 := inp.fields.foldl (fun ps f =>
      propInsert ps f.name
        { type := mapType f.type, description := f.description,
          enum := f.enum, default := f.default }) []
    let required := inp.fields.foldl (fun acc f =>
      if f.required then acc ++ [f.name] else acc) []
    let props2 := inp.flags.foldl (fun ps fl =>
      propInsert ps fl.name
        { type := lit "boolean", description := fl.description,
          enum := [], default := some (.bool fl.default) }) props1
    { base with inputSchema :=
        { type := lit "object", properties := props2, required := required } }

/-- Go `Server.buildTools` (server.go lines 268-346): the built-in
`api_request` tool followed by one tool per manifest command. -/
def buildTools (s : Server) : List Tool :=
  apiRequestTool :: s.manifest.commands.map buildTool

/-- Go `Server.handleToolsList` (server.go lines 192-201). -/
def handleToolsList (s : Server) (req : Request) : Response :=
  { jsonrpc := lit "2.0", id := req.id,
    result := some (.toolsList (buildTools s)), error := none }

/-- Go `Server.handleRequest` (server.go lines 146-173): method dispatch;
`initialized` is a notification with no response; unknown methods get the
protocol error `-32601`. -/
def handleRequest (s : Server) (env : Env) (req : Request) : Option Response :=
  if req.method = lit "initialize" then some (handleInitialize s req)
  else if req.method = lit "initialized" then none
  else if req.method = lit "tools/list" then some (handleToolsList s req)
  else if req.method = lit "tools/call" then some (handleToolsCall s env req)
  else if req.method = lit "ping" then
    some { jsonrpc := lit "2.0", id := req.id, result := some .emptyObj, error := none }
  else
    some { jsonrpc := lit "2.0", id := req.id, result := none,
           error := some { code := -32601, message := lit "Method not found",
                           data := none } }

/-- The response emitted by `sendError(nil, -32700, "Parse error", data)`
for an unparseable input line (server.go lines 134-137 and 364-375). -/
def parseErrorResponse (e : Str) : Response :=
  { jsonrpc := lit "2.0", id := none, result := none,
    error := some { code := -32700, message := lit "Parse error",
                    data := some (.str e) } }

/-- How the input stream ends: end-of-file, or a read failure with an
error. -/
inductive Terminator where
  | eof
  | readFailure (e : Str)

/-- Go `Server.Run` (server.go lines 116-144), with the stdin stream made
explicit: a list of complete input lines followed by a terminator.  Empty
lines (after trimming) are skipped; unparseable lines emit the `-32700`
response and processing continues; requests are dispatched and their
responses (when any) emitted; end-of-file returns cleanly and a read failure
is returned as the error. -/
def runLoop (s : Server) (env : Env) : List Str → Terminator →
    List Response × Except Str Unit
  | [], .eof => ([], .ok ())
  | [], .readFailure e => ([], .error e)
  | l :: rest, t =>
    let line := trimSpace l
    if line = [] then runLoop s env rest t
    else
      match env.unmarshalRequest line with
      | .error e =>
        let out := runLoop s env rest t
        (parseErrorResponse e :: out.1, out.2)
      | .ok req =>
        let out := runLoop s env rest t
        match handleRequest s env req with
        | none => out
        | some resp => (resp :: out.1, out.2)

end Server

/-
Helper lemmas about the string primitives.
-/

theorem replaceAllFuel_single (c d : Char) :
    ∀ (s : Str) (n : Nat), s.length ≤ n →
      replaceAllFuel [c] [d] n s = s.map (fun x => if x = c then d else x) := by
  intro s
  induction s with
  | nil =>
    intro n _
    cases n <;> simp [replaceAllFuel]
  | cons x rest ih =>
    intro n h
    cases n with
    | zero => simp at h
    | succ m =>
      by_cases hx : c = x
      · subst hx
        have hpre : ([c].isPrefixOf (c :: rest)) = true := by
          simp [List.isPrefixOf]
        simp only [replaceAllFuel, hpre]
        rw [if_pos (by simp)]
        simp only [List.length_cons, List.length_nil, List.drop_succ_cons, List.drop_zero]
        rw [ih m (by simpa using h)]
        simp
      · have hpre : ([c].isPrefixOf (x :: rest)) = false := by
          simp only [List.isPrefixOf, List.isPrefixOf_nil_left, Bool.and_true]
          exact beq_eq_false_iff_ne.mpr hx
        simp only [replaceAllFuel, hpre]
        rw [if_neg (by simp)]
        simp only [List.map_cons]
        rw [ih m (by simpa using h)]
        have : ¬ x = c := fun hh => hx hh.symm
        simp [this]

theorem replaceAll_single (c d : Char) (s : Str) :
    replaceAll s [c] [d] = s.map (fun x => if x = c then d else x) :=
  replaceAllFuel_single c d s s.length le_rfl

theorem containsSubstr_append_left (pat rest : Str) :
    containsSubstr (pat ++ rest) pat = true := by
  cases pat with
  | nil => cases rest <;> simp [containsSubstr]
  | cons c cr =>
    simp only [containsSubstr, List.cons_append, Bool.or_eq_true]
    left
    rw [List.isPrefixOf_iff_prefix]
    exact ⟨rest, by simp⟩

theorem splitFirst_of_not_mem (sep : Char) (s : Str) (h : sep ∉ s) :
    splitFirst sep s = none := by
  induction s with
  | nil => rfl
  | cons c rest ih =>
    have hc : ¬ c = sep := fun hh => h (hh ▸ List.mem_cons_self c rest)
    have hrest : sep ∉ rest := fun hh => h (List.mem_cons_of_mem c hh)
    simp [splitFirst, hc, ih hrest]

theorem splitFirst_append_sep (sep : Char) (pre post : Str) (h : sep ∉ pre) :
    splitFirst sep (pre ++ sep :: post) = some (pre, post) := by
  induction pre with
  | nil => simp [splitFirst]
  | cons c rest ih =>
    have hc : ¬ c = sep := fun hh => h (hh ▸ List.mem_cons_self c rest)
    have hrest : sep ∉ rest := fun hh => h (List.mem_cons_of_mem c hh)
    simp [splitFirst, hc, ih hrest]

/-
Concrete sample data used by witness theorems.
-/

/-- Sample runtime configuration. -/
def cfgW : Config :=
  { accountID := lit "A", defaultClusterID := lit "c1", envClusterID := [] }

/-- Sample oracle environment: config and auth succeed, every HTTP call
returns status 200 with body `ok`, the JSON decoder rejects everything, the
pretty printer returns the empty string, the YAML reader returns an empty
map, and every protocol line is unparseable. -/
def envW : Env :=
  { configLoad := .ok cfgW,
    authToken := fun _ => .ok (lit "tok"),
    http := fun _ => .resp { statusCode := 200, status := lit "200 OK", body := lit "ok" },
    parseJson := fun _ => none,
    marshalIndent := fun _ => [],
    loadYAMLFile := fun _ => .ok [],
    unmarshalRequest := fun _ => .error (lit "invalid character") }

/-- Sample empty manifest. -/
def manifestW : Manifest := { version := lit "1", commands := [] }

/-- Sample server over the empty manifest. -/
def serverW : Server :=
  { manifest := manifestW, baseURL := lit "https://api", version := lit "0.1" }

/-- C6: array fields with the `keyValue` array format are transformed token
by token: a token containing a colon becomes a key/value pair split at the
first colon, a token with no colon becomes a key-only entry; the
`["env:prod","debug"]` example resolves as the spec states; and inside
`collectInput`, a changed `key_value`-format array field resolves to exactly
this transformation of its string-slice value. -/
theorem c6_keyvalue_array_format :
    (∀ (ts1 ts2 : List Str) (tag : Str),
      parseKeyValueTags (ts1 ++ tag :: ts2) =
        parseKeyValueTags ts1 ++ parseKeyValueTags [tag] ++ parseKeyValueTags ts2) ∧
    (∀ (pre post : Str), ':' ∉ pre →
      parseKeyValueTags [pre ++ ':' :: post] = [[(lit "key", pre), (lit "value", post)]]) ∧
    (∀ (tok : Str), ':' ∉ tok →
      parseKeyValueTags [tok] = [[(lit "key", tok)]]) ∧
    (kvTagsJson (parseKeyValueTags [lit "env:prod", lit "debug"]) =
      .arr [.obj [(lit "key", .str (lit "env")), (lit "value", .str (lit "prod"))],
            .obj [(lit "key", .str (lit "debug"))]]) ∧
    (∀ (env : Env) (flags : FlagSet) (f : Field),
      f.positional = false → f.type = lit "array" → f.format = lit "key_value" →
      flags.changed f.name = true → flags.getString (lit "file") = [] →
      Executor.collectInput env flags
        { command := [], description := [], endpoint := [], method := [],
          input := some { fields := [f], flags := [] }, returnsJob := false } =
        .ok [(f.name, kvTagsJson (parseKeyValueTags (flags.getStringSlice f.name)))]) := by
  refine ⟨?_, ?_, ?_, ?_, ?_⟩
  · intro ts1 ts2 tag
    simp [parseKeyValueTags]
  · intro pre post h
    simp [parseKeyValueTags, splitFirst_append_sep ':' pre post h]
  · intro tok h
    simp [parseKeyValueTags, splitFirst_of_not_mem ':' tok h]
  · rfl
  · intro env flags f hpos htype hformat hchanged hfile
    have hne1 : lit "array" ≠ lit "string" := by decide
    have hne2 : lit "array" ≠ lit "integer" := by decide
    simp only [Executor.collectInput, List.foldl_cons, List.foldl_nil, hfile,
      if_pos rfl, hpos, hchanged, htype, hformat]
    cases hd : f.default with
    | none => simp [hd, amapInsert, hpos, hchanged, htype, hformat, hne1, hne2]
    | some d => simp [hd, amapInsert, hpos, hchanged, htype, hformat, hne1, hne2]

/-- C6 witness: the general token lemmas applied at the concrete
`env:prod` token. -/
theorem c6_witness :
    parseKeyValueTags [lit "env" ++ ':' :: lit "prod"] =
      [[(lit "key", lit "env"), (lit "value", lit "prod")]] :=
  c6_keyvalue_array_format.2.1 (lit "env") (lit "prod") (by decide)

/-- C7 counterexample: the operation paths `a_b` and `a/b` collapse to the
same tool name, and applying the inverse replacement to the tool name of
`a_b` does not recover the path, so the claimed mutual derivability fails on
paths that contain an underscore. -/
theorem c7_counterexample :
    (Server.buildTool
      { command := lit "a_b", description := [], endpoint := [], method := [],
        input := none, returnsJob := false }).name =
    (Server.buildTool
      { command := lit "a/b", description := [], endpoint := [], method := [],
        input := none, returnsJob := false }).name ∧
    lit "a_b" ≠ lit "a/b" ∧
    replaceAll (replaceAll (lit "a_b") (lit "/") (lit "_")) (lit "_") (lit "/") ≠
      lit "a_b" := by
  refine ⟨by decide, by decide, by decide⟩

/-- C7 amended: the generated tool name is the operation path with `/`
replaced by `_`; when the operation path contains no underscore, the inverse
replacement recovers the path, and no two underscore-free paths collapse to
the same tool name. -/
theorem c7_amended_tool_name_roundtrip :
    (∀ cmd : Command,
      (Server.buildTool cmd).name = replaceAll cmd.command (lit "/") (lit "_")) ∧
    (∀ p : Str, '_' ∉ p →
      replaceAll (replaceAll p (lit "/") (lit "_")) (lit "_") (lit "/") = p) ∧
    (∀ p q : Str, '_' ∉ p → '_' ∉ q →
      replaceAll p (lit "/") (lit "_") = replaceAll q (lit "/") (lit "_") → p = q) := by
  have hlit1 : lit "/" = ['/'] := rfl
  have hlit2 : lit "_" = ['_'] := rfl
  have hround : ∀ p : Str, '_' ∉ p →
      replaceAll (replaceAll p (lit "/") (lit "_")) (lit "_") (lit "/") = p := by
    intro p hp
    rw [hlit1, hlit2, replaceAll_single, replaceAll_single, List.map_map]
    have : ∀ x ∈ p, ((fun x => if x = '_' then '/' else x) ∘
        fun x => if x = '/' then '_' else x) x = x := by
      intro x hx
      by_cases hxs : x = '/'
      · simp [hxs]
      · have hxu : ¬ x = '_' := fun hh => hp (hh ▸ hx)
        simp [hxs, hxu]
    rw [List.map_congr_left this]
    simp
  refine ⟨?_, hround, ?_⟩
  · intro cmd
    cases h : cmd.input <;> simp [Server.buildTool, h]
  · intro p q hp hq heq
    have := hround p hp
    rw [heq, hround q hq] at this
    exact this.symm

/-- C7 amended witness: the round trip applied at the concrete path
`services/add/valkey`. -/
theorem c7_amended_witness :
    replaceAll (replaceAll (lit "services/add/valkey") (lit "/") (lit "_"))
      (lit "_") (lit "/") = lit "services/add/valkey" :=
  c7_amended_tool_name_roundtrip.2.1 (lit "services/add/valkey") (by decide)

/-- C8: an unparseable (non-empty) input line produces exactly the `-32700`
parse-error response and the loop continues with the remaining lines
unchanged; the parse-error response carries code `-32700`; an end-of-stream
terminator always ends the loop cleanly; any other read failure is returned
as the loop error. -/
theorem c8_parse_error_keeps_running :
    (∀ (s : Server) (env : Env) (l : Str) (rest : List Str)
        (t : Server.Terminator) (e : Str),
      trimSpace l ≠ [] → env.unmarshalRequest (trimSpace l) = .error e →
      Server.runLoop s env (l :: rest) t =
        (Server.parseErrorResponse e :: (Server.runLoop s env rest t).1,
         (Server.runLoop s env rest t).2)) ∧
    (∀ e : Str, (Server.parseErrorResponse e).error =
      some { code := -32700, message := lit "Parse error", data := some (.str e) }) ∧
    (∀ (s : Server) (env : Env) (lines : List Str),
      (Server.runLoop s env lines .eof).2 = .ok ()) ∧
    (∀ (s : Server) (env : Env) (lines : List Str) (e : Str),
      (Server.runLoop s env lines (.readFailure e)).2 = .error e) := by
  have hsnd : ∀ (s : Server) (env : Env) (lines : List Str) (t : Server.Terminator),
      (Server.runLoop s env lines t).2 = (Server.runLoop s env [] t).2 := by
    intro s env lines t
    induction lines with
    | nil => rfl
    | cons l rest ih =>
      simp only [Server.runLoop]
      split
      · exact ih
      · split
        · simpa using ih
        · split
          · simpa using ih
          · simpa using ih
  refine ⟨?_, fun _ => rfl, ?_, ?_⟩
  · intro s env l rest t e hl he
    simp only [Server.runLoop, if_neg hl, he]
  · intro s env lines
    rw [hsnd]
    rfl
  · intro s env lines e
    rw [hsnd]
    rfl

/-- C8 witness: the parse-error continuation applied at a concrete
unparseable line under the sample environment. -/
theorem c8_witness :
    Server.runLoop serverW envW [lit "x"] .eof =
      (Server.parseErrorResponse (lit "invalid character") ::
        (Server.runLoop serverW envW [] .eof).1,
       (Server.runLoop serverW envW [] .eof).2) :=
  c8_parse_error_keeps_running.1 serverW envW (lit "x") [] .eof
    (lit "invalid character") (by decide) rfl

/-- Sample `tools/call` request naming an unknown tool. -/
def reqW : Request :=
  { jsonrpc := lit "2.0", id := none, method := lit "tools/call",
    params := some (.obj [(lit "name", .str (lit "nope"))]) }

/-- C1: when the `tools/call` parameters parse, every dispatch failure is
wrapped as a JSON-RPC result with a single text block carrying the failure
message and the `isError` flag set, never as an error object; an unknown tool
name fails with a message containing `unknown command`; a parse failure of
the parameters is answered with the protocol error `-32602`, and well-formed
parameters never produce an error object. -/
theorem c1_tool_failure_is_flagged_result :
    (∀ (s : Server) (env : Env) (req : Request) (params : CallToolParams) (e : Str),
      parseCallToolParams req.params = .ok params →
      Server.dispatchToolCall s env params = .error e →
      Server.handleToolsCall s env req =
        { jsonrpc := lit "2.0", id := req.id,
          result := some (.callTool
            { content := [{ type := lit "text", text := e }], isError := true }),
          error := none }) ∧
    (∀ (s : Server) (env : Env) (params : CallToolParams),
      params.name ≠ lit "api_request" →
      s.manifest.commands.find?
        (fun c => c.command = replaceAll params.name (lit "_") (lit "/")) = none →
      Server.dispatchToolCall s env params =
        .error (lit "unknown command: " ++ params.name) ∧
      containsSubstr (lit "unknown command: " ++ params.name)
        (lit "unknown command") = true) ∧
    (∀ (s : Server) (env : Env) (req : Request) (e : Str),
      parseCallToolParams req.params = .error e →
      Server.handleToolsCall s env req =
        { jsonrpc := lit "2.0", id := req.id, result := none,
          error := some { code := -32602, message := lit "Invalid params",
                          data := some (.str e) } }) ∧
    (∀ (s : Server) (env : Env) (req : Request) (params : CallToolParams),
      parseCallToolParams req.params = .ok params →
      (Server.handleToolsCall s env req).error = none) := by
  refine ⟨?_, ?_, ?_, ?_⟩
  · intro s env req params e hparse hdisp
    simp [Server.handleToolsCall, hparse, hdisp]
  · intro s env params hname hfind
    constructor
    · simp [Server.dispatchToolCall, hname, CommandExecutor.Execute,
        CommandExecutor.ExecuteT, hfind]
    · have hsplit : lit "unknown command: " ++ params.name =
          lit "unknown command" ++ (lit ": " ++ params.name) := rfl
      rw [hsplit]
      exact containsSubstr_append_left (lit "unknown command") (lit ": " ++ params.name)
  · intro s env req e hparse
    simp [Server.handleToolsCall, hparse]
  · intro s env req params hparse
    simp only [Server.handleToolsCall, hparse]
    cases Server.dispatchToolCall s env params <;> rfl

/-- C1 witness: an unknown tool call against the sample server produces the
error-flagged result. -/
theorem c1_witness :
    Server.handleToolsCall serverW envW reqW =
      { jsonrpc := lit "2.0", id := none,
        result := some (.callTool
          { content := [{ type := lit "text", text := lit "unknown command: nope" }],
            isError := true }),
        error := none } :=
  c1_tool_failure_is_flagged_result.1 serverW envW reqW
    { name := lit "nope", arguments := [] } (lit "unknown command: nope") rfl rfl

/-- C9 counterexample: a call to the built-in raw tool whose arguments carry
`method` and `endpoint` but no `cid` does not fail — the request is issued
anyway (with an empty cluster id, hence no `X-CID` header) and the call
returns a success, contradicting the claim that a call missing any of the
three required arguments fails with a tool-execution error instead of
issuing a request. -/
theorem c9_counterexample :
    amapFind? [(lit "method", JValue.str (lit "GET")),
               (lit "endpoint", JValue.str (lit "/x"))] (lit "cid") = none ∧
    Server.handleAPIRequestT serverW envW
      [(lit "method", JValue.str (lit "GET")),
       (lit "endpoint", JValue.str (lit "/x"))] =
      (.ok [],
       [{ method := lit "GET", url := lit "https://api/x", body := none,
          token := lit "tok", cid := [] }]) :=
  ⟨rfl, rfl⟩

/-- C9 amended: the server validates that `method` and `endpoint` are present
as non-empty strings before issuing the raw call, failing with a
tool-execution error and no request otherwise; the cluster id is not
validated — the call proceeds with whatever (possibly empty) `cid` string was
supplied; the published schema of the built-in tool nevertheless lists
exactly `method`, `endpoint` and `cid` as required, and the built-in tool is
always the first published tool. -/
theorem c9_amended_raw_tool_validation :
    (∀ (s : Server) (env : Env) (args : AMap),
      Server.asString (amapFind? args (lit "method")) = none →
      Server.handleAPIRequestT s env args = (.error (lit "method is required"), [])) ∧
    (∀ (s : Server) (env : Env) (args : AMap) (m : Str),
      Server.asString (amapFind? args (lit "method")) = some m → m ≠ [] →
      Server.asString (amapFind? args (lit "endpoint")) = none →
      Server.handleAPIRequestT s env args = (.error (lit "endpoint is required"), [])) ∧
    (∀ (s : Server) (env : Env) (args : AMap) (m ep : Str),
      Server.asString (amapFind? args (lit "method")) = some m → m ≠ [] →
      Server.asString (amapFind? args (lit "endpoint")) = some ep → ep ≠ [] →
      Server.handleAPIRequestT s env args =
        CommandExecutor.ExecuteRawT env s.baseURL m ep
          (match amapFind? args (lit "body") with
           | some (.obj o) => o
           | _ => [])
          ((Server.asString (amapFind? args (lit "cid"))).getD [])) ∧
    Server.apiRequestTool.inputSchema.required =
      [lit "method", lit "endpoint", lit "cid"] ∧
    (∀ s : Server,
      Server.buildTools s = Server.apiRequestTool :: s.manifest.commands.map Server.buildTool) := by
  refine ⟨?_, ?_, ?_, rfl, fun _ => rfl⟩
  · intro s env args h
    simp [Server.handleAPIRequestT, h]
  · intro s env args m hm hme hep
    simp [Server.handleAPIRequestT, hm, hme, hep]
  · intro s env args m ep hm hme hep hepe
    simp only [Server.handleAPIRequestT, hm, hep, if_neg hme, if_neg hepe]

/-- C9 amended witness: a raw call with `method` and `endpoint` but no `cid`
proceeds directly to the executor with an empty cluster id. -/
theorem c9_amended_witness :
    Server.handleAPIRequestT serverW envW
      [(lit "method", JValue.str (lit "GET")),
       (lit "endpoint", JValue.str (lit "/x"))] =
      CommandExecutor.ExecuteRawT envW serverW.baseURL (lit "GET") (lit "/x") [] [] := by
  have h := c9_amended_raw_tool_validation.2.2.1 serverW envW
    [(lit "method", JValue.str (lit "GET")),
     (lit "endpoint", JValue.str (lit "/x"))]
    (lit "GET") (lit "/x") rfl (by decide) rfl (by decide)
  exact h

/-- The structured result map assembled by `ExecuteRaw` for a response:
status code, status text, and the JSON-decoded body when it decodes. -/
def rawResultJson (env : Env) (r : HttpResp) : JValue :=
  .obj [(lit "status", .num (Int.ofNat r.statusCode)),
        (lit "status_text", .str r.status),
        (lit "body",
          match env.parseJson r.body with
          | none => .str r.body
          | some j => j)]

/-- Sample `tools/call` request naming the built-in raw tool with `method`
and `endpoint` arguments. -/
def reqRawW : Request :=
  { jsonrpc := lit "2.0", id := none, method := lit "tools/call",
    params := some (.obj
      [(lit "name", .str (lit "api_request")),
       (lit "arguments", .obj
         [(lit "method", .str (lit "GET")),
          (lit "endpoint", .str (lit "/x"))])]) }

/-- C10: a raw-tool call that obtains an HTTP response — whatever the status
code — is wrapped as a non-error result whose text is the rendering of a map
carrying the status code, status text and body; a manifest-derived tool call
whose response status is at least 400 is wrapped as an error-flagged result
carrying the API-error message. -/
theorem c10_raw_tool_never_flags_api_errors :
    (∀ (s : Server) (env : Env) (req : Request) (params : CallToolParams)
        (cfg : Config) (tok : Str) (r : HttpResp) (m ep : Str),
      parseCallToolParams req.params = .ok params →
      params.name = lit "api_request" →
      Server.asString (amapFind? params.arguments (lit "method")) = some m → m ≠ [] →
      Server.asString (amapFind? params.arguments (lit "endpoint")) = some ep → ep ≠ [] →
      env.configLoad = .ok cfg →
      env.authToken cfg = .ok tok →
      (∀ c, env.http c = .resp r) →
      Server.handleToolsCall s env req =
        { jsonrpc := lit "2.0", id := req.id,
          result := some (.callTool
            { content :=
                [{ type := lit "text",
                   text := env.marshalIndent (rawResultJson env r) }],
              isError := false }),
          error := none }) ∧
    (∀ (s : Server) (env : Env) (req : Request) (params : CallToolParams)
        (cmdDef : Command) (cfg : Config) (tok url : Str) (r : HttpResp),
      parseCallToolParams req.params = .ok params →
      params.name ≠ lit "api_request" →
      s.manifest.commands.find?
        (fun c => c.command = replaceAll params.name (lit "_") (lit "/")) = some cmdDef →
      env.configLoad = .ok cfg →
      env.authToken cfg = .ok tok →
      CommandExecutor.buildEndpoint env s.baseURL cmdDef.endpoint params.arguments cmdDef
        = .ok url →
      (∀ c, env.http c = .resp r) →
      400 ≤ r.statusCode →
      Server.handleToolsCall s env req =
        { jsonrpc := lit "2.0", id := req.id,
          result := some (.callTool
            { content :=
                [{ type := lit "text",
                   text := lit "API error (" ++ natToStr r.statusCode ++ lit "): " ++ r.body }],
              isError := true }),
          error := none }) := by
  constructor
  · intro s env req params cfg tok r m ep hparse hname hm hme hep hepe hcfg htok hhttp
    simp [Server.handleToolsCall, hparse, Server.dispatchToolCall, hname,
      Server.handleAPIRequest, Server.handleAPIRequestT, hm, hme, hep, hepe,
      CommandExecutor.ExecuteRawT, hcfg, htok, hhttp, rawResultJson]
  · intro s env req params cmdDef cfg tok url r hparse hname hfind hcfg htok hbe hhttp hstatus
    simp [Server.handleToolsCall, hparse, Server.dispatchToolCall, hname,
      CommandExecutor.Execute, CommandExecutor.ExecuteT, hfind, hcfg, htok, hbe,
      hhttp, hstatus]

/-- C10 witness: the raw-tool call of the sample request is wrapped as a
non-error result under the sample environment. -/
theorem c10_witness :
    Server.handleToolsCall serverW envW reqRawW =
      { jsonrpc := lit "2.0", id := none,
        result := some (.callTool
          { content := [{ type := lit "text", text := [] }], isError := false }),
        error := none } := by
  have h := c10_raw_tool_never_flags_api_errors.1 serverW envW reqRawW
    { name := lit "api_request",
      arguments := [(lit "method", .str (lit "GET")),
                    (lit "endpoint", .str (lit "/x"))] }
    cfgW (lit "tok")
    { statusCode := 200, status := lit "200 OK", body := lit "ok" }
    (lit "GET") (lit "/x") rfl rfl rfl (by decide) rfl (by decide) rfl rfl
    (fun _ => rfl)
  exact h

/-
Machinery for reasoning about left folds of map insertions, used to
characterise `collectInput` and `buildBody` one key at a time.
-/

/-- The net effect on one key of a left fold of per-element map updates: the
last element that updates the key wins. -/
def lastUpd? {α : Type} (upd : α → Option JValue) : List α → Option JValue
  | [] => none
  | x :: rest =>
    match lastUpd? upd rest with
    | some v => some v
    | none => upd x

theorem amapFind?_foldl {α : Type} (F : AMap → α → AMap)
    (upd : α → Option JValue) (k : Str)
    (hF : ∀ (m : AMap) (x : α), amapFind? (F m x) k =
      match upd x with
      | some v => some v
      | none => amapFind? m k) :
    ∀ (xs : List α) (m : AMap),
      amapFind? (xs.foldl F m) k =
        match lastUpd? upd xs with
        | some v => some v
        | none => amapFind? m k := by
  intro xs
  induction xs with
  | nil => intro m; rfl
  | cons x rest ih =>
    intro m
    simp only [List.foldl_cons, lastUpd?]
    rw [ih (F m x), hF m x]
    cases lastUpd? upd rest <;> cases upd x <;> rfl

theorem lastUpd?_eq_none {α : Type} (upd : α → Option JValue) :
    ∀ xs : List α, (∀ x ∈ xs, upd x = none) → lastUpd? upd xs = none := by
  intro xs
  induction xs with
  | nil => intro _; rfl
  | cons x rest ih =>
    intro h
    simp only [lastUpd?, ih (fun y hy => h y (List.mem_cons_of_mem x hy)),
      h x (List.mem_cons_self x rest)]

theorem lastUpd?_single {α : Type} (upd : α → Option JValue) (x0 : α) :
    ∀ xs : List α, x0 ∈ xs → (∀ x ∈ xs, x = x0 ∨ upd x = none) →
      lastUpd? upd xs = upd x0 := by
  intro xs
  induction xs with
  | nil => intro h; cases h
  | cons x rest ih =>
    intro hmem h
    by_cases hx0 : x0 ∈ rest
    · have hrest := ih hx0 (fun y hy => h y (List.mem_cons_of_mem x hy))
      simp only [lastUpd?, hrest]
      cases hw : upd x0 with
      | some v => rfl
      | none =>
        rcases h x (List.mem_cons_self x rest) with hxx | hxn
        · rw [hxx, hw]
        · rw [hxn]
    · have hx : x = x0 := by
        rcases List.mem_cons.mp hmem with h1 | h2
        · exact h1.symm
        · exact absurd h2 hx0
      subst hx
      have hrest : lastUpd? upd rest = none := by
        apply lastUpd?_eq_none
        intro y hy
        rcases h y (List.mem_cons_of_mem x hy) with h1 | h2
        · exact absurd (h1 ▸ hy) hx0
        · exact h2
      simp only [lastUpd?, hrest]

/-- For an association list with distinct keys, folding all its insertions
updates one key exactly with the list lookup. -/
theorem lastUpd?_assoc (k : Str) :
    ∀ m : AMap, (m.map Prod.fst).Nodup →
      lastUpd? (fun p => if p.1 = k then some p.2 else none) m = amapFind? m k := by
  intro m
  induction m with
  | nil => intro _; rfl
  | cons p rest ih =>
    intro hnd
    have hnd' : (rest.map Prod.fst).Nodup := (List.nodup_cons.mp hnd).2
    by_cases hk : p.1 = k
    · have hrest : lastUpd? (fun p => if p.1 = k then some p.2 else none) rest = none := by
        apply lastUpd?_eq_none
        intro y hy
        have hne : y.1 ≠ k := by
          intro hkk
          exact (List.nodup_cons.mp hnd).1 (hk ▸ hkk ▸ List.mem_map_of_mem Prod.fst hy)
        simp [hne]
      simp [lastUpd?, hrest, hk, amapFind?]
    · simp only [lastUpd?, ih hnd', amapFind?, if_neg hk]
      cases amapFind? rest k <;> simp [hk]

/-
Per-key update functions of the phases of `collectInput` and `buildBody`.
-/

/-- The value the explicit-flag layer of `collectInput` contributes for a
non-positional field: the changed flag value coerced by the declared kind
(absent when the flag was not changed or the kind is unknown). -/
def explicitFieldVal (flags : FlagSet) (f : Field) : Option JValue :=
  if flags.changed f.name = true then
    (if f.type = lit "string" then some (.str (flags.getString f.name))
     else if f.type = lit "integer" then some (.num (flags.getInt f.name))
     else if f.type = lit "array" then
       some (if f.format = lit "key_value" then
              kvTagsJson (parseKeyValueTags (flags.getStringSlice f.name))
             else .arr ((flags.getStringSlice f.name).map .str))
     else none)
  else none

/-- The value the explicit-flag layer of `collectInput` contributes for a
boolean switch. -/
def explicitFlagVal (flags : FlagSet) (fl : Flag) : Option JValue :=
  if flags.changed fl.name = true then some (.bool (flags.getBool fl.name)) else none

/-- Per-key update of the field-defaults phase of `collectInput`. -/
def updFieldDefault (k : Str) (g : Field) : Option JValue :=
  if g.name = k ∧ g.positional = false then g.default else none

/-- Per-key update of the flag-defaults phase of `collectInput`. -/
def updFlagDefault (k : Str) (fl : Flag) : Option JValue :=
  if fl.name = k then some (.bool fl.default) else none

/-- Per-key update of the bulk-input merge phase of `collectInput`. -/
def updFile (k : Str) (p : Str × JValue) : Option JValue :=
  if p.1 = k then some p.2 else none

/-- Per-key update of the explicit-field phase of `collectInput`. -/
def updFieldExplicit (flags : FlagSet) (k : Str) (g : Field) : Option JValue :=
  if g.positional = false ∧ g.name = k then explicitFieldVal flags g else none

/-- Per-key update of the explicit-switch phase of `collectInput`. -/
def updFlagExplicit (flags : FlagSet) (k : Str) (fl : Flag) : Option JValue :=
  if fl.name = k then explicitFlagVal flags fl else none

/-- Per-key update of the field phase of `buildBody`. -/
def updBodyField (args : AMap) (k : Str) (g : Field) : Option JValue :=
  if g.positional = false ∧ g.name = k then
    (match amapFind? args g.name with
     | some v => some v
     | none => g.default)
  else none

/-- Per-key update of the switch phase of `buildBody`. -/
def updBodyFlag (args : AMap) (k : Str) (fl : Flag) : Option JValue :=
  if fl.name = k then
    some ((amapFind? args fl.name).getD (.bool fl.default))
  else none

/-
Step lemmas: the effect of one phase step on one key.
-/

theorem updFieldDefault_step (k : Str) (m : AMap) (g : Field) :
    amapFind? (match g.default with
               | some d => if ¬g.positional then amapInsert m g.name d else m
               | none => m) k =
      match updFieldDefault k g with
      | some v => some v
      | none => amapFind? m k := by
  cases hd : g.default with
  | none => simp [updFieldDefault, hd]
  | some d =>
    cases hp : g.positional with
    | true => simp [updFieldDefault, hd, hp]
    | false =>
      simp only [hd, hp, Bool.false_eq_true, not_false_eq_true, if_pos]
      rw [amapFind?_insert]
      by_cases hk : g.name = k
      · simp [updFieldDefault, hd, hp, hk]
      · simp [updFieldDefault, hd, hp, hk]

theorem updFlagDefault_step (k : Str) (m : AMap) (fl : Flag) :
    amapFind? (amapInsert m fl.name (.bool fl.default)) k =
      match updFlagDefault k fl with
      | some v => some v
      | none => amapFind? m k := by
  rw [amapFind?_insert]
  by_cases hk : fl.name = k
  · simp [updFlagDefault, hk]
  · simp [updFlagDefault, hk]

theorem updFile_step (k : Str) (m : AMap) (p : Str × JValue) :
    amapFind? (amapInsert m p.1 p.2) k =
      match updFile k p with
      | some v => some v
      | none => amapFind? m k := by
  rw [amapFind?_insert]
  by_cases hk : p.1 = k
  · simp [updFile, hk]
  · simp [updFile, hk]

theorem updFieldExplicit_step (flags : FlagSet) (k : Str) (m : AMap) (g : Field) :
    amapFind? ((if g.positional then m
      else if flags.changed g.name then
        (if g.type = lit "string" then
          amapInsert m g.name (.str (flags.getString g.name))
        else if g.type = lit "integer" then
          amapInsert m g.name (.num (flags.getInt g.name))
        else if g.type = lit "array" then
          (let val := flags.getStringSlice g.name
           if g.format = lit "key_value" then
            amapInsert m g.name (kvTagsJson (parseKeyValueTags val))
           else amapInsert m g.name (.arr (val.map .str)))
        else m)
      else m)) k =
      match updFieldExplicit flags k g with
      | some v => some v
      | none => amapFind? m k := by
  have tis : ¬ (lit "integer" = lit "string") := by decide
  have tas : ¬ (lit "array" = lit "string") := by decide
  have tai : ¬ (lit "array" = lit "integer") := by decide
  cases hp : g.positional with
  | true => simp [updFieldExplicit, hp]
  | false =>
    by_cases hc : flags.changed g.name = true
    · by_cases h1 : g.type = lit "string"
      · by_cases hk : g.name = k
        · subst hk
          simp [updFieldExplicit, explicitFieldVal, hp, hc, h1, amapFind?_insert]
        · simp [updFieldExplicit, explicitFieldVal, hp, hc, h1, hk, amapFind?_insert]
      · by_cases h2 : g.type = lit "integer"
        · by_cases hk : g.name = k
          · subst hk
            simp [updFieldExplicit, explicitFieldVal, hp, hc, h2, tis, amapFind?_insert]
          · simp [updFieldExplicit, explicitFieldVal, hp, hc, h2, tis, hk, amapFind?_insert]
        · by_cases h3 : g.type = lit "array"
          · by_cases h4 : g.format = lit "key_value"
            · by_cases hk : g.name = k
              · subst hk
                simp [updFieldExplicit, explicitFieldVal, hp, hc, h3, h4, tas, tai,
                  amapFind?_insert]
              · simp [updFieldExplicit, explicitFieldVal, hp, hc, h3, h4, tas, tai, hk,
                  amapFind?_insert]
            · by_cases hk : g.name = k
              · subst hk
                simp [updFieldExplicit, explicitFieldVal, hp, hc, h3, h4, tas, tai,
                  amapFind?_insert]
              · simp [updFieldExplicit, explicitFieldVal, hp, hc, h3, h4, tas, tai, hk,
                  amapFind?_insert]
          · simp [updFieldExplicit, explicitFieldVal, hp, hc, h1, h2, h3]
    · have hc' : flags.changed g.name = false := by
        cases hcc : flags.changed g.name
        · rfl
        · exact absurd hcc hc
      simp [updFieldExplicit, explicitFieldVal, hp, hc']

theorem updFlagExplicit_step (flags : FlagSet) (k : Str) (m : AMap) (fl : Flag) :
    amapFind? ((if flags.changed fl.name then
        amapInsert m fl.name (.bool (flags.getBool fl.name))
      else m)) k =
      match updFlagExplicit flags k fl with
      | some v => some v
      | none => amapFind? m k := by
  by_cases hc : flags.changed fl.name = true
  · by_cases hk : fl.name = k
    · subst hk
      simp [updFlagExplicit, explicitFlagVal, hc, amapFind?_insert]
    · simp [updFlagExplicit, explicitFlagVal, hc, hk, amapFind?_insert]
  · have hc' : flags.changed fl.name = false := by
      cases hcc : flags.changed fl.name
      · rfl
      · exact absurd hcc hc
    simp [updFlagExplicit, explicitFlagVal, hc']

theorem updBodyField_step (args : AMap) (k : Str) (m : AMap) (g : Field) :
    amapFind? ((if g.positional then m
      else
        match amapFind? args g.name with
        | some v => amapInsert m g.name v
        | none =>
          match g.default with
          | some d => amapInsert m g.name d
          | none => m)) k =
      match updBodyField args k g with
      | some v => some v
      | none => amapFind? m k := by
  cases hp : g.positional with
  | true => simp [updBodyField, hp]
  | false =>
    cases ha : amapFind? args g.name with
    | some v =>
      by_cases hk : g.name = k
      · subst hk
        simp [updBodyField, hp, ha, amapFind?_insert]
      · simp [updBodyField, hp, ha, hk, amapFind?_insert]
    | none =>
      cases hd : g.default with
      | some d =>
        by_cases hk : g.name = k
        · subst hk
          simp [updBodyField, hp, ha, hd, amapFind?_insert]
        · simp [updBodyField, hp, ha, hd, hk, amapFind?_insert]
      | none => simp [updBodyField, hp, ha, hd]

theorem updBodyFlag_step (args : AMap) (k : Str) (m : AMap) (fl : Flag) :
    amapFind? ((match amapFind? args fl.name with
      | some v => amapInsert m fl.name v
      | none => amapInsert m fl.name (.bool fl.default))) k =
      match updBodyFlag args k fl with
      | some v => some v
      | none => amapFind? m k := by
  cases ha : amapFind? args fl.name with
  | some v =>
    by_cases hk : fl.name = k
    · subst hk
      simp [updBodyFlag, ha, amapFind?_insert]
    · simp [updBodyFlag, ha, hk, amapFind?_insert]
  | none =>
    by_cases hk : fl.name = k
    · subst hk
      simp [updBodyFlag, ha, amapFind?_insert]
    · simp [updBodyFlag, ha, hk, amapFind?_insert]

/-- Characterisation of one key of the `collectInput` result: the last layer
that updates the key wins, in the order switch-overrides, field-overrides,
bulk-input file, switch defaults, field defaults. -/
theorem collectInput_find (env : Env) (flags : FlagSet) (cmdDef : Command)
    (inp : Input) (fileData : AMap) (k : Str) (res : AMap)
    (hinp : cmdDef.input = some inp)
    (hfile : flags.getString (lit "file") = [] ∧ fileData = [] ∨
             flags.getString (lit "file") ≠ [] ∧
               env.loadYAMLFile (flags.getString (lit "file")) = .ok fileData)
    (hres : Executor.collectInput env flags cmdDef = .ok res) :
    amapFind? res k =
      match lastUpd? (updFlagExplicit flags k) inp.flags with
      | some v => some v
      | none =>
        match lastUpd? (updFieldExplicit flags k) inp.fields with
        | some v => some v
        | none =>
          match lastUpd? (updFile k) fileData with
          | some v => some v
          | none =>
            match lastUpd? (updFlagDefault k) inp.flags with
            | some v => some v
            | none =>
              match lastUpd? (updFieldDefault k) inp.fields with
              | some v => some v
              | none => none := by
  rcases hfile with ⟨hf0, hfd⟩ | ⟨hfne, hload⟩
  · subst hfd
    simp only [Executor.collectInput, hinp, hf0, if_pos rfl] at hres
    have hres' := (Except.ok.inj hres).symm
    subst hres'
    rw [amapFind?_foldl _ (updFlagExplicit flags k) k (updFlagExplicit_step flags k),
      amapFind?_foldl _ (updFieldExplicit flags k) k (updFieldExplicit_step flags k),
      amapFind?_foldl _ (updFlagDefault k) k (updFlagDefault_step k),
      amapFind?_foldl _ (updFieldDefault k) k (updFieldDefault_step k)]
    simp only [lastUpd?]
    cases lastUpd? (updFlagExplicit flags k) inp.flags <;>
      cases lastUpd? (updFieldExplicit flags k) inp.fields <;>
        cases lastUpd? (updFlagDefault k) inp.flags <;>
          cases lastUpd? (updFieldDefault k) inp.fields <;> rfl
  · simp only [Executor.collectInput, hinp, if_neg hfne, hload] at hres
    have hres' := (Except.ok.inj hres).symm
    subst hres'
    rw [amapFind?_foldl _ (updFlagExplicit flags k) k (updFlagExplicit_step flags k),
      amapFind?_foldl _ (updFieldExplicit flags k) k (updFieldExplicit_step flags k),
      amapFind?_foldl _ (updFile k) k (updFile_step k),
      amapFind?_foldl _ (updFlagDefault k) k (updFlagDefault_step k),
      amapFind?_foldl _ (updFieldDefault k) k (updFieldDefault_step k)]
    cases lastUpd? (updFlagExplicit flags k) inp.flags <;>
      cases lastUpd? (updFieldExplicit flags k) inp.fields <;>
        cases lastUpd? (updFile k) fileData <;>
          cases lastUpd? (updFlagDefault k) inp.flags <;>
            cases lastUpd? (updFieldDefault k) inp.fields <;> rfl

/-- Characterisation of one key of the `buildBody` result for a body-carrying
method: switches win over fields, and within each group the declaration-last
update wins. -/
theorem buildBody_find (args : AMap) (cmdDef : Command) (inp : Input) (k : Str)
    (hmeth : cmdDef.method = lit "POST" ∨ cmdDef.method = lit "PUT" ∨
             cmdDef.method = lit "PATCH")
    (hinp : cmdDef.input = some inp) :
    amapFind? (CommandExecutor.buildBody args cmdDef) k =
      match lastUpd? (updBodyFlag args k) inp.flags with
      | some v => some v
      | none =>
        match lastUpd? (updBodyField args k) inp.fields with
        | some v => some v
        | none => none := by
  simp only [CommandExecutor.buildBody, hinp, if_neg (not_not_intro hmeth)]
  rw [amapFind?_foldl _ (updBodyFlag args k) k (updBodyFlag_step args k),
    amapFind?_foldl _ (updBodyField args k) k (updBodyField_step args k)]
  cases lastUpd? (updBodyFlag args k) inp.flags <;>
    cases lastUpd? (updBodyField args k) inp.fields <;> rfl

theorem lastUpd?_updFile (k : Str) (m : AMap) (h : (m.map Prod.fst).Nodup) :
    lastUpd? (updFile k) m = amapFind? m k :=
  lastUpd?_assoc k m h

/-- Resolution of a non-positional field by `collectInput`, assuming distinct
field/switch names and unique bulk-input keys: the explicit flag value wins,
else the bulk-input value, else the declared default. -/
theorem collectInput_find_field (env : Env) (flags : FlagSet) (cmdDef : Command)
    (inp : Input) (fileData : AMap) (f : Field) (res : AMap)
    (hinp : cmdDef.input = some inp)
    (hnd : ((inp.fields.map Field.name) ++ (inp.flags.map Flag.name)).Nodup)
    (hmem : f ∈ inp.fields) (hpos : f.positional = false)
    (hkeys : (fileData.map Prod.fst).Nodup)
    (hfile : flags.getString (lit "file") = [] ∧ fileData = [] ∨
             flags.getString (lit "file") ≠ [] ∧
               env.loadYAMLFile (flags.getString (lit "file")) = .ok fileData)
    (hres : Executor.collectInput env flags cmdDef = .ok res) :
    amapFind? res f.name =
      match explicitFieldVal flags f with
      | some v => some v
      | none =>
        match amapFind? fileData f.name with
        | some v => some v
        | none => f.default := by
  rw [collectInput_find env flags cmdDef inp fileData f.name res hinp hfile hres]
  obtain ⟨hndF, hndFl, hdisj⟩ := List.nodup_append.mp hnd
  have hname_ne : ∀ fl ∈ inp.flags, fl.name ≠ f.name := by
    intro fl hfl he
    exact hdisj (List.mem_map_of_mem Field.name hmem)
      (he ▸ List.mem_map_of_mem Flag.name hfl)
  have hFlNone : lastUpd? (updFlagExplicit flags f.name) inp.flags = none := by
    apply lastUpd?_eq_none
    intro fl hfl
    simp [updFlagExplicit, hname_ne fl hfl]
  have hFldExpl : lastUpd? (updFieldExplicit flags f.name) inp.fields =
      updFieldExplicit flags f.name f := by
    apply lastUpd?_single _ f inp.fields hmem
    intro g hg
    by_cases hgname : g.name = f.name
    · exact Or.inl (List.inj_on_of_nodup_map hndF hg hmem hgname)
    · exact Or.inr (by simp [updFieldExplicit, hgname])
  have hFlDef : lastUpd? (updFlagDefault f.name) inp.flags = none := by
    apply lastUpd?_eq_none
    intro fl hfl
    simp [updFlagDefault, hname_ne fl hfl]
  have hFldDef : lastUpd? (updFieldDefault f.name) inp.fields =
      updFieldDefault f.name f := by
    apply lastUpd?_single _ f inp.fields hmem
    intro g hg
    by_cases hgname : g.name = f.name
    · exact Or.inl (List.inj_on_of_nodup_map hndF hg hmem hgname)
    · exact Or.inr (by simp [updFieldDefault, hgname])
  rw [hFlNone, hFldExpl, hFlDef, hFldDef, lastUpd?_updFile f.name fileData hkeys]
  have h1 : updFieldExplicit flags f.name f = explicitFieldVal flags f := by
    simp [updFieldExplicit, hpos]
  have h2 : updFieldDefault f.name f = f.default := by
    simp [updFieldDefault, hpos]
  rw [h1, h2]
  cases explicitFieldVal flags f <;> cases amapFind? fileData f.name <;>
    cases f.default <;> rfl

/-- Resolution of a boolean switch by `collectInput`, assuming distinct
field/switch names and unique bulk-input keys: the explicit flag value wins,
else the bulk-input value, else the declared default — a switch always
resolves to a value. -/
theorem collectInput_find_flag (env : Env) (flags : FlagSet) (cmdDef : Command)
    (inp : Input) (fileData : AMap) (fl : Flag) (res : AMap)
    (hinp : cmdDef.input = some inp)
    (hnd : ((inp.fields.map Field.name) ++ (inp.flags.map Flag.name)).Nodup)
    (hmem : fl ∈ inp.flags)
    (hkeys : (fileData.map Prod.fst).Nodup)
    (hfile : flags.getString (lit "file") = [] ∧ fileData = [] ∨
             flags.getString (lit "file") ≠ [] ∧
               env.loadYAMLFile (flags.getString (lit "file")) = .ok fileData)
    (hres : Executor.collectInput env flags cmdDef = .ok res) :
    amapFind? res fl.name =
      match explicitFlagVal flags fl with
      | some v => some v
      | none =>
        match amapFind? fileData fl.name with
        | some v => some v
        | none => some (.bool fl.default) := by
  rw [collectInput_find env flags cmdDef inp fileData fl.name res hinp hfile hres]
  obtain ⟨hndF, hndFl, hdisj⟩ := List.nodup_append.mp hnd
  have hname_ne : ∀ g ∈ inp.fields, g.name ≠ fl.name := by
    intro g hg he
    exact hdisj (List.mem_map_of_mem Field.name hg)
      (he ▸ List.mem_map_of_mem Flag.name hmem)
  have hFlExpl : lastUpd? (updFlagExplicit flags fl.name) inp.flags =
      updFlagExplicit flags fl.name fl := by
    apply lastUpd?_single _ fl inp.flags hmem
    intro g hg
    by_cases hgname : g.name = fl.name
    · exact Or.inl (List.inj_on_of_nodup_map hndFl hg hmem hgname)
    · exact Or.inr (by simp [updFlagExplicit, hgname])
  have hFldNone : lastUpd? (updFieldExplicit flags fl.name) inp.fields = none := by
    apply lastUpd?_eq_none
    intro g hg
    simp [updFieldExplicit, hname_ne g hg]
  have hFlDef : lastUpd? (updFlagDefault fl.name) inp.flags =
      updFlagDefault fl.name fl := by
    apply lastUpd?_single _ fl inp.flags hmem
    intro g hg
    by_cases hgname : g.name = fl.name
    · exact Or.inl (List.inj_on_of_nodup_map hndFl hg hmem hgname)
    · exact Or.inr (by simp [updFlagDefault, hgname])
  have hFldDef : lastUpd? (updFieldDefault fl.name) inp.fields = none := by
    apply lastUpd?_eq_none
    intro g hg
    simp [updFieldDefault, hname_ne g hg]
  rw [hFlExpl, hFldNone, hFlDef, hFldDef, lastUpd?_updFile fl.name fileData hkeys]
  have h1 : updFlagExplicit flags fl.name fl = explicitFlagVal flags fl := by
    simp [updFlagExplicit]
  have h2 : updFlagDefault fl.name fl = some (.bool fl.default) := by
    simp [updFlagDefault]
  rw [h1, h2]

/-- Body entry of a non-positional field for a body-carrying method: the
resolved value if present, else the declared default, else absent. -/
theorem buildBody_find_field (args : AMap) (cmdDef : Command) (inp : Input)
    (f : Field)
    (hmeth : cmdDef.method = lit "POST" ∨ cmdDef.method = lit "PUT" ∨
             cmdDef.method = lit "PATCH")
    (hinp : cmdDef.input = some inp)
    (hnd : ((inp.fields.map Field.name) ++ (inp.flags.map Flag.name)).Nodup)
    (hmem : f ∈ inp.fields) (hpos : f.positional = false) :
    amapFind? (CommandExecutor.buildBody args cmdDef) f.name =
      match amapFind? args f.name with
      | some v => some v
      | none => f.default := by
  rw [buildBody_find args cmdDef inp f.name hmeth hinp]
  obtain ⟨hndF, hndFl, hdisj⟩ := List.nodup_append.mp hnd
  have hFlNone : lastUpd? (updBodyFlag args f.name) inp.flags = none := by
    apply lastUpd?_eq_none
    intro fl hfl
    have : fl.name ≠ f.name := by
      intro he
      exact hdisj (List.mem_map_of_mem Field.name hmem)
        (he ▸ List.mem_map_of_mem Flag.name hfl)
    simp [updBodyFlag, this]
  have hFld : lastUpd? (updBodyField args f.name) inp.fields =
      updBodyField args f.name f := by
    apply lastUpd?_single _ f inp.fields hmem
    intro g hg
    by_cases hgname : g.name = f.name
    · exact Or.inl (List.inj_on_of_nodup_map hndF hg hmem hgname)
    · exact Or.inr (by simp [updBodyField, hgname])
  rw [hFlNone, hFld]
  have h1 : updBodyField args f.name f =
      match amapFind? args f.name with
      | some v => some v
      | none => f.default := by
    simp [updBodyField, hpos]
  rw [h1]
  cases amapFind? args f.name <;> cases f.default <;> rfl

/-- Body entry of a boolean switch for a body-carrying method: the resolved
value if present, else the declared default — a switch always appears in the
body. -/
theorem buildBody_find_flag (args : AMap) (cmdDef : Command) (inp : Input)
    (fl : Flag)
    (hmeth : cmdDef.method = lit "POST" ∨ cmdDef.method = lit "PUT" ∨
             cmdDef.method = lit "PATCH")
    (hinp : cmdDef.input = some inp)
    (hnd : ((inp.fields.map Field.name) ++ (inp.flags.map Flag.name)).Nodup)
    (hmem : fl ∈ inp.flags) :
    amapFind? (CommandExecutor.buildBody args cmdDef) fl.name =
      some ((amapFind? args fl.name).getD (.bool fl.default)) := by
  rw [buildBody_find args cmdDef inp fl.name hmeth hinp]
  obtain ⟨hndF, hndFl, hdisj⟩ := List.nodup_append.mp hnd
  have hFl : lastUpd? (updBodyFlag args fl.name) inp.flags =
      updBodyFlag args fl.name fl := by
    apply lastUpd?_single _ fl inp.flags hmem
    intro g hg
    by_cases hgname : g.name = fl.name
    · exact Or.inl (List.inj_on_of_nodup_map hndFl hg hmem hgname)
    · exact Or.inr (by simp [updBodyFlag, hgname])
  rw [hFl]
  simp [updBodyFlag]

/-
Spec-side definitions for the endpoint-resolution refinement (C2).  These
follow the wording of spec section 4.2 and are compared with the source
embedding `Executor.buildEndpoint`.
-/

/-- Spec step 3 substitution for one field: both the bracket style and the
colon style are replaced by the identical resolved value. -/
def specSubstituteBoth (name value s : Str) : Str :=
  replaceAll (replaceAll s (lbrace :: (name ++ [rbrace])) value) (':' :: name) value

/-- Spec pairing of positional fields, in declaration order, with their
resolved values (the CLI arguments in order); a positional field beyond the
supplied arguments has no resolved value and contributes no substitution. -/
def specPositionalPairs : List Field → List Str → List (Str × Str)
  | [], _ => []
  | f :: rest, args =>
    if f.positional then
      match args with
      | [] => specPositionalPairs rest []
      | v :: vs => (f.name, v) :: specPositionalPairs rest vs
    else specPositionalPairs rest args

/-- Spec step 1: substitute the account-id placeholder, failing when the
runtime account id is absent. -/
def specResolveAccount (accountID s : Str) : Except Str Str :=
  if containsSubstr s (lit ":aid") then
    (if accountID = [] then
      .error (lit "account ID not set: run runos login first")
    else .ok (replaceAll s (lit ":aid") accountID))
  else .ok s

/-- Spec step 2: substitute the cluster-id placeholder, failing when no
cluster id is resolvable. -/
def specResolveCluster (cid s : Str) : Except Str Str :=
  if containsSubstr s (lit ":cid") then
    (if cid = [] then
      .error (lit "cluster ID required: use --cid flag or set default with runos config set cid <cluster-id>")
    else .ok (replaceAll s (lit ":cid") cid))
  else .ok s

/-- Spec section 4.2 in order: account id, then cluster id, then each
positional field in declaration order with both placeholder styles, then the
base URL is prepended. -/
def specBuildEndpoint (baseURL template : Str) (fields : List Field)
    (args : List Str) (accountID cid : Str) : Except Str Str :=
  match specResolveAccount accountID template with
  | .error e => .error e
  | .ok s1 =>
    match specResolveCluster cid s1 with
    | .error e => .error e
    | .ok s2 =>
      .ok (baseURL ++ (specPositionalPairs fields args).foldl
        (fun r p => specSubstituteBoth p.1 p.2 r) s2)

/-- The declared fields of a command (empty when it declares no input). -/
def Command.fieldsOf (c : Command) : List Field :=
  match c.input with
  | none => []
  | some inp => inp.fields

theorem substFields_eq_foldl :
    ∀ (fields : List Field) (args : List Str) (r : Str),
      Executor.substFields fields args r =
        (specPositionalPairs fields args).foldl
          (fun acc p => specSubstituteBoth p.1 p.2 acc) r := by
  intro fields
  induction fields with
  | nil => intro args r; rfl
  | cons f rest ih =>
    intro args r
    by_cases hf : f.positional = true
    · cases args with
      | nil => simp [Executor.substFields, specPositionalPairs, hf, ih]
      | cons v vs =>
        simp [Executor.substFields, specPositionalPairs, hf, ih, specSubstituteBoth]
    · simp [Executor.substFields, specPositionalPairs, hf, ih]

/-- Sample configuration with no resolvable cluster id. -/
def cfg0 : Config := { accountID := lit "A", defaultClusterID := [], envClusterID := [] }

/-- Sample environment whose configuration has no resolvable cluster id. -/
def env0 : Env := { envW with configLoad := .ok cfg0 }

/-- Sample flag set with nothing changed and no file or cid flag. -/
def flagsNone : FlagSet :=
  { changed := fun _ => false, getString := fun _ => [],
    getInt := fun _ => 0, getStringSlice := fun _ => [], getBool := fun _ => false }

/-- Sample command whose endpoint references the cluster id. -/
def cmdC2 : Command :=
  { command := lit "stats", description := [], endpoint := lit "/c/:cid",
    method := lit "GET", input := none, returnsJob := false }

/-- C2: the source endpoint builder equals the spec-ordered resolution
(account id first, cluster id second, then positional fields in declaration
order with both placeholder styles replaced by the identical value, then the
base URL prepended); a template referencing the cluster id with no resolvable
cluster id fails with a message containing `cluster ID required`; and when
endpoint building fails, the executor returns that failure having issued no
HTTP call. -/
theorem c2_endpoint_resolution_order :
    (∀ (baseURL endpoint : Str) (args : List Str) (cmdDef : Command)
        (cfg : Config) (cid : Str),
      Executor.buildEndpoint baseURL endpoint args cmdDef cfg cid =
        specBuildEndpoint baseURL endpoint (Command.fieldsOf cmdDef) args
          cfg.accountID cid) ∧
    (∀ endpoint : Str, containsSubstr endpoint (lit ":cid") = true →
      specResolveCluster [] endpoint =
        .error (lit "cluster ID required: use --cid flag or set default with runos config set cid <cluster-id>") ∧
      containsSubstr
        (lit "cluster ID required: use --cid flag or set default with runos config set cid <cluster-id>")
        (lit "cluster ID required") = true) ∧
    (∀ name value s : Str,
      specSubstituteBoth name value s =
        replaceAll (replaceAll s (lbrace :: (name ++ [rbrace])) value)
          (':' :: name) value) ∧
    (∀ (env : Env) (baseURL : Str) (flags : FlagSet) (args : List Str)
        (cmdDef : Command) (cfg : Config) (tok : Str) (body : AMap) (e : Str),
      env.configLoad = .ok cfg →
      env.authToken cfg = .ok tok →
      Executor.collectInput env flags cmdDef = .ok body →
      Executor.buildEndpoint baseURL cmdDef.endpoint args cmdDef cfg
        (if flags.getString (lit "cid") = [] then cfg.getDefaultClusterID
         else flags.getString (lit "cid")) = .error e →
      Executor.ExecuteT env baseURL flags args cmdDef = (.error e, [])) := by
  refine ⟨?_, ?_, fun _ _ _ => rfl, ?_⟩
  · intro baseURL endpoint args cmdDef cfg cid
    have key : ∀ r2 : Str,
        (match cmdDef.input with
         | none => r2
         | some inp => Executor.substFields inp.fields args r2) =
        (specPositionalPairs (Command.fieldsOf cmdDef) args).foldl
          (fun acc p => specSubstituteBoth p.1 p.2 acc) r2 := by
      intro r2
      cases hi : cmdDef.input with
      | none => simp [Command.fieldsOf, hi, specPositionalPairs]
      | some inp => simp [Command.fieldsOf, hi, substFields_eq_foldl]
    simp only [Executor.buildEndpoint, specBuildEndpoint, specResolveAccount,
      specResolveCluster]
    by_cases h1 : containsSubstr endpoint (lit ":aid") = true
    · by_cases h2 : cfg.accountID = []
      · simp [h1, h2]
      · simp only [h1, h2, if_true, if_false, if_neg h2]
        by_cases h3 : containsSubstr (replaceAll endpoint (lit ":aid") cfg.accountID)
            (lit ":cid") = true
        · by_cases h4 : cid = []
          · simp [h3, h4]
          · simp [h3, h4, key]
        · simp [h3, key]
    · simp only [h1, if_false, Bool.false_eq_true]
      by_cases h3 : containsSubstr endpoint (lit ":cid") = true
      · by_cases h4 : cid = []
        · simp [h3, h4]
        · simp [h3, h4, key]
      · simp [h3, key]
  · intro endpoint h
    exact ⟨by simp [specResolveCluster, h], by decide⟩
  · intro env baseURL flags args cmdDef cfg tok body e hcfg htok hcoll hbe
    simp only [Executor.ExecuteT, hcfg, htok, hcoll, hbe]

/-- C2 witness: invoking an operation whose endpoint references the cluster
id with no cluster id resolvable fails with the cluster-id message and issues
no HTTP call. -/
theorem c2_witness :
    Executor.ExecuteT env0 (lit "B") flagsNone [] cmdC2 =
      (.error (lit "cluster ID required: use --cid flag or set default with runos config set cid <cluster-id>"),
       []) :=
  c2_endpoint_resolution_order.2.2.2 env0 (lit "B") flagsNone [] cmdC2 cfg0
    (lit "tok") [] _ rfl rfl rfl rfl

/-- Sample integer field named `x` with declared default `1`. -/
def fieldX : Field :=
  { name := lit "x", type := lit "integer", description := [], required := false,
    default := some (.num 1), enum := [], format := [], positional := false }

/-- Sample command declaring only the field `x`. -/
def cmdX : Command :=
  { command := lit "set", description := [], endpoint := lit "/v",
    method := lit "POST", input := some { fields := [fieldX], flags := [] },
    returnsJob := false }

/-- Sample environment whose bulk-input file resolves `x` to `2`. -/
def envX : Env := { envW with loadYAMLFile := fun _ => .ok [(lit "x", JValue.num 2)] }

/-- Sample flag set supplying both the bulk-input file and an explicit `x`
of `3`. -/
def flagsXall : FlagSet :=
  { changed := fun n => n == lit "x",
    getString := fun n => if n == lit "file" then lit "f.yaml" else [],
    getInt := fun _ => 3, getStringSlice := fun _ => [], getBool := fun _ => false }

/-- Sample flag set supplying only the bulk-input file. -/
def flagsXfile : FlagSet :=
  { changed := fun _ => false,
    getString := fun n => if n == lit "file" then lit "f.yaml" else [],
    getInt := fun _ => 0, getStringSlice := fun _ => [], getBool := fun _ => false }

/-- C3: argument resolution layers defaults, then the bulk-input file, then
explicitly supplied values, each layer overwriting the previous for any key
it defines — characterised per field and per switch (under distinct declared
names and unique bulk-input keys), and evaluated on the spec example
(default `x=1`, bulk-input `x=2`, explicit `x=3`). -/
theorem c3_layered_precedence :
    (∀ (env : Env) (flags : FlagSet) (cmdDef : Command) (inp : Input)
        (fileData : AMap) (f : Field) (res : AMap),
      cmdDef.input = some inp →
      ((inp.fields.map Field.name) ++ (inp.flags.map Flag.name)).Nodup →
      f ∈ inp.fields → f.positional = false →
      (fileData.map Prod.fst).Nodup →
      (flags.getString (lit "file") = [] ∧ fileData = [] ∨
       flags.getString (lit "file") ≠ [] ∧
         env.loadYAMLFile (flags.getString (lit "file")) = .ok fileData) →
      Executor.collectInput env flags cmdDef = .ok res →
      amapFind? res f.name =
        match explicitFieldVal flags f with
        | some v => some v
        | none =>
          match amapFind? fileData f.name with
          | some v => some v
          | none => f.default) ∧
    (∀ (env : Env) (flags : FlagSet) (cmdDef : Command) (inp : Input)
        (fileData : AMap) (fl : Flag) (res : AMap),
      cmdDef.input = some inp →
      ((inp.fields.map Field.name) ++ (inp.flags.map Flag.name)).Nodup →
      fl ∈ inp.flags →
      (fileData.map Prod.fst).Nodup →
      (flags.getString (lit "file") = [] ∧ fileData = [] ∨
       flags.getString (lit "file") ≠ [] ∧
         env.loadYAMLFile (flags.getString (lit "file")) = .ok fileData) →
      Executor.collectInput env flags cmdDef = .ok res →
      amapFind? res fl.name =
        match explicitFlagVal flags fl with
        | some v => some v
        | none =>
          match amapFind? fileData fl.name with
          | some v => some v
          | none => some (.bool fl.default)) ∧
    ((match Executor.collectInput envX flagsXall cmdX with
      | .ok res => amapFind? res (lit "x")
      | .error _ => none) = some (.num 3)) ∧
    ((match Executor.collectInput envX flagsXfile cmdX with
      | .ok res => amapFind? res (lit "x")
      | .error _ => none) = some (.num 2)) ∧
    ((match Executor.collectInput envW flagsNone cmdX with
      | .ok res => amapFind? res (lit "x")
      | .error _ => none) = some (.num 1)) := by
  refine ⟨?_, ?_, rfl, rfl, rfl⟩
  · intro env flags cmdDef inp fileData f res hinp hnd hmem hpos hkeys hfile hres
    exact collectInput_find_field env flags cmdDef inp fileData f res hinp hnd hmem
      hpos hkeys hfile hres
  · intro env flags cmdDef inp fileData fl res hinp hnd hmem hkeys hfile hres
    exact collectInput_find_flag env flags cmdDef inp fileData fl res hinp hnd hmem
      hkeys hfile hres

/-- C3 witness: the per-field characterisation applied at the spec example
with all three layers present. -/
theorem c3_witness :
    amapFind? [(lit "x", JValue.num 3)] (lit "x") =
      match explicitFieldVal flagsXall fieldX with
      | some v => some v
      | none =>
        match amapFind? [(lit "x", JValue.num 2)] (lit "x") with
        | some v => some v
        | none => fieldX.default := by
  have h := c3_layered_precedence.1 envX flagsXall cmdX
    { fields := [fieldX], flags := [] } [(lit "x", JValue.num 2)] fieldX
    [(lit "x", JValue.num 3)] rfl (by decide) (List.mem_cons_self fieldX []) rfl
    (by decide) (Or.inr ⟨by decide, rfl⟩) rfl
  exact h

theorem buildBody_eq_nil_of_method (args : AMap) (cmdDef : Command)
    (hm : cmdDef.method = lit "GET" ∨ cmdDef.method = lit "DELETE") :
    CommandExecutor.buildBody args cmdDef = [] := by
  have h1 : ¬(lit "GET" = lit "POST" ∨ lit "GET" = lit "PUT" ∨
      lit "GET" = lit "PATCH") := by decide
  have h2 : ¬(lit "DELETE" = lit "POST" ∨ lit "DELETE" = lit "PUT" ∨
      lit "DELETE" = lit "PATCH") := by decide
  rcases hm with hm | hm <;> simp [CommandExecutor.buildBody, hm, h1, h2]

/-- Sample boolean switch with default `true`. -/
def flagW4 : Flag := { name := lit "debug", description := [], default := true }

/-- Sample POST command declaring only the switch `debug`. -/
def cmdP4 : Command :=
  { command := lit "mk", description := [], endpoint := lit "/t",
    method := lit "POST", input := some { fields := [], flags := [flagW4] },
    returnsJob := false }

/-- C4: for POST/PUT/PATCH operations the assembled body carries, for each
non-positional field, its resolved value, else its declared default, else no
entry; and for each switch its resolved value, else its declared default, so
switches always appear; GET and DELETE operations build no body and their
issued HTTP call attaches none. -/
theorem c4_body_assembly :
    (∀ (args : AMap) (cmdDef : Command) (inp : Input) (f : Field),
      (cmdDef.method = lit "POST" ∨ cmdDef.method = lit "PUT" ∨
        cmdDef.method = lit "PATCH") →
      cmdDef.input = some inp →
      ((inp.fields.map Field.name) ++ (inp.flags.map Flag.name)).Nodup →
      f ∈ inp.fields → f.positional = false →
      amapFind? (CommandExecutor.buildBody args cmdDef) f.name =
        match amapFind? args f.name with
        | some v => some v
        | none => f.default) ∧
    (∀ (args : AMap) (cmdDef : Command) (inp : Input) (fl : Flag),
      (cmdDef.method = lit "POST" ∨ cmdDef.method = lit "PUT" ∨
        cmdDef.method = lit "PATCH") →
      cmdDef.input = some inp →
      ((inp.fields.map Field.name) ++ (inp.flags.map Flag.name)).Nodup →
      fl ∈ inp.flags →
      amapFind? (CommandExecutor.buildBody args cmdDef) fl.name =
        some ((amapFind? args fl.name).getD (.bool fl.default))) ∧
    (∀ (args : AMap) (cmdDef : Command),
      (cmdDef.method = lit "GET" ∨ cmdDef.method = lit "DELETE") →
      CommandExecutor.buildBody args cmdDef = []) ∧
    (∀ (env : Env) (m : Manifest) (baseURL toolName : Str) (args : AMap)
        (cmdDef : Command) (call : HttpCall),
      m.commands.find?
        (fun c => c.command = replaceAll toolName (lit "_") (lit "/")) = some cmdDef →
      (cmdDef.method = lit "GET" ∨ cmdDef.method = lit "DELETE") →
      call ∈ (CommandExecutor.ExecuteT env m baseURL toolName args).2 →
      call.body = none) := by
  refine ⟨?_, ?_, ?_, ?_⟩
  · intro args cmdDef inp f hmeth hinp hnd hmem hpos
    exact buildBody_find_field args cmdDef inp f hmeth hinp hnd hmem hpos
  · intro args cmdDef inp fl hmeth hinp hnd hmem
    exact buildBody_find_flag args cmdDef inp fl hmeth hinp hnd hmem
  · intro args cmdDef hm
    exact buildBody_eq_nil_of_method args cmdDef hm
  · intro env m baseURL toolName args cmdDef call hfind hm hmem
    have hbb := buildBody_eq_nil_of_method args cmdDef hm
    simp only [CommandExecutor.ExecuteT, hfind, hbb, List.isEmpty_nil, if_true] at hmem
    split at hmem
    · simp at hmem
    · split at hmem
      · simp at hmem
      · split at hmem
        · simp at hmem
        · split at hmem
          · simp at hmem
            subst hmem
            rfl
          · simp at hmem
            subst hmem
            rfl
          · split at hmem
            · simp at hmem
              subst hmem
              rfl
            · split at hmem
              · simp at hmem
                subst hmem
                rfl
              · simp at hmem
                subst hmem
                rfl

/-- C4 witness: a POST command with one switch always carries the switch in
its body, falling back to the declared default. -/
theorem c4_witness :
    amapFind? (CommandExecutor.buildBody [] cmdP4) (lit "debug") =
      some ((amapFind? [] (lit "debug")).getD (.bool true)) := by
  have h := c4_body_assembly.2.1 [] cmdP4 { fields := [], flags := [flagW4] }
    flagW4 (Or.inl rfl) rfl (by decide) (List.mem_cons_self flagW4 [])
  exact h

/-- Sample required positional string field `name`. -/
def fieldName5 : Field :=
  { name := lit "name", type := lit "string", description := [], required := true,
    default := none, enum := [], format := [], positional := true }

/-- Sample operation with a required positional field in its endpoint. -/
def cmd5 : Command :=
  { command := lit "svc", description := [], endpoint := lit "/v1/:name",
    method := lit "GET", input := some { fields := [fieldName5], flags := [] },
    returnsJob := false }

/-- Sample required non-positional integer field `size` with no default. -/
def fieldSize5 : Field :=
  { name := lit "size", type := lit "integer", description := [], required := true,
    default := none, enum := [], format := [], positional := false }

/-- Sample POST operation declaring the required field `size`. -/
def cmd5b : Command :=
  { command := lit "mk", description := [], endpoint := lit "/v1/things",
    method := lit "POST", input := some { fields := [fieldSize5], flags := [] },
    returnsJob := false }

/-- C5 counterexample: with no value supplied for the required positional
field `name`, both endpoint builders succeed and return a URL in which the
placeholder `:name` is still present — no validation error is raised; and the
required field `size` with no value and no default is silently absent from
the assembled body. -/
theorem c5_counterexample :
    CommandExecutor.buildEndpoint envW (lit "B") (lit "/v1/:name") [] cmd5 =
      .ok (lit "B/v1/:name") ∧
    containsSubstr (lit "B/v1/:name") (':' :: lit "name") = true ∧
    Executor.buildEndpoint (lit "B") (lit "/v1/:name") [] cmd5 cfgW (lit "c1") =
      .ok (lit "B/v1/:name") ∧
    CommandExecutor.buildBody [] cmd5b = [] :=
  ⟨rfl, by decide, rfl, rfl⟩

/-- C5 amended: the request builders raise no validation errors for missing
field values — endpoint building can fail only on a config-load failure, a
missing account id or a missing cluster id; a positional field with no
resolved value is skipped, leaving its placeholder unsubstituted; and a
required non-positional field with no resolved value and no declared default
is silently omitted from the body. -/
theorem c5_amended_builders_never_validate :
    (∀ (env : Env) (baseURL endpoint : Str) (args : AMap) (cmdDef : Command)
        (e : Str),
      CommandExecutor.buildEndpoint env baseURL endpoint args cmdDef = .error e →
      (∃ ec, env.configLoad = .error ec ∧ e = lit "failed to load config: " ++ ec) ∨
      e = lit "account ID not set: run runos login first" ∨
      e = lit "cluster ID required: set default with runos config set cid <cluster-id>") ∧
    (∀ (baseURL endpoint : Str) (args : List Str) (cmdDef : Command)
        (cfg : Config) (cid : Str) (e : Str),
      Executor.buildEndpoint baseURL endpoint args cmdDef cfg cid = .error e →
      e = lit "account ID not set: run runos login first" ∨
      e = lit "cluster ID required: use --cid flag or set default with runos config set cid <cluster-id>") ∧
    (∀ (fields : List Field) (r : Str), Executor.substFields fields [] r = r) ∧
    (∀ (args : AMap) (fields : List Field) (r : Str),
      (∀ f ∈ fields, amapFind? args f.name = none) →
      CommandExecutor.substPositional args fields r = r) ∧
    (∀ (args : AMap) (cmdDef : Command) (inp : Input) (f : Field),
      (cmdDef.method = lit "POST" ∨ cmdDef.method = lit "PUT" ∨
        cmdDef.method = lit "PATCH") →
      cmdDef.input = some inp →
      ((inp.fields.map Field.name) ++ (inp.flags.map Flag.name)).Nodup →
      f ∈ inp.fields → f.positional = false →
      amapFind? args f.name = none → f.default = none →
      amapFind? (CommandExecutor.buildBody args cmdDef) f.name = none) := by
  refine ⟨?_, ?_, ?_, ?_, ?_⟩
  · intro env baseURL endpoint args cmdDef e h
    simp only [CommandExecutor.buildEndpoint] at h
    cases hc : env.configLoad with
    | error ec =>
      rw [hc] at h
      exact Or.inl ⟨ec, rfl, (Except.error.inj h).symm⟩
    | ok cfg =>
      rw [hc] at h
      by_cases h1 : containsSubstr endpoint (lit ":aid") = true
      · by_cases h2 : cfg.accountID = []
        · simp only [h1, h2, if_true, if_pos, Except.error.injEq] at h
          exact Or.inr (Or.inl h.symm)
        · simp only [h1, h2, if_true, if_false, if_neg h2] at h
          by_cases h3 : containsSubstr (replaceAll endpoint (lit ":aid") cfg.accountID)
              (lit ":cid") = true
          · by_cases h4 : cfg.getDefaultClusterID = []
            · simp only [h3, h4, if_true, if_pos, Except.error.injEq] at h
              exact Or.inr (Or.inr h.symm)
            · simp only [h3, h4, if_true, if_false, if_neg h4] at h
              exact absurd h (by simp)
          · simp only [h3, Bool.false_eq_true, if_false] at h
            exact absurd h (by simp)
      · simp only [h1, Bool.false_eq_true, if_false] at h
        by_cases h3 : containsSubstr endpoint (lit ":cid") = true
        · by_cases h4 : cfg.getDefaultClusterID = []
          · simp only [h3, h4, if_true, if_pos, Except.error.injEq] at h
            exact Or.inr (Or.inr h.symm)
          · simp only [h3, h4, if_true, if_false, if_neg h4] at h
            exact absurd h (by simp)
        · simp only [h3, Bool.false_eq_true, if_false] at h
          exact absurd h (by simp)
  · intro baseURL endpoint args cmdDef cfg cid e h
    simp only [Executor.buildEndpoint] at h
    by_cases h1 : containsSubstr endpoint (lit ":aid") = true
    · by_cases h2 : cfg.accountID = []
      · simp only [h1, h2, if_true, if_pos, Except.error.injEq] at h
        exact Or.inl h.symm
      · simp only [h1, h2, if_true, if_false, if_neg h2] at h
        by_cases h3 : containsSubstr (replaceAll endpoint (lit ":aid") cfg.accountID)
            (lit ":cid") = true
        · by_cases h4 : cid = []
          · simp only [h3, h4, if_true, if_pos, Except.error.injEq] at h
            exact Or.inr h.symm
          · simp only [h3, h4, if_true, if_false, if_neg h4] at h
            exact absurd h (by simp)
        · simp only [h3, Bool.false_eq_true, if_false] at h
          exact absurd h (by simp)
    · simp only [h1, Bool.false_eq_true, if_false] at h
      by_cases h3 : containsSubstr endpoint (lit ":cid") = true
      · by_cases h4 : cid = []
        · simp only [h3, h4, if_true, if_pos, Except.error.injEq] at h
          exact Or.inr h.symm
        · simp only [h3, h4, if_true, if_false, if_neg h4] at h
          exact absurd h (by simp)
      · simp only [h3, Bool.false_eq_true, if_false] at h
        exact absurd h (by simp)
  · intro fields r
    induction fields generalizing r with
    | nil => rfl
    | cons f rest ih =>
      by_cases hf : f.positional = true
      · simp [Executor.substFields, hf, ih]
      · simp [Executor.substFields, hf, ih]
  · intro args fields r h
    induction fields generalizing r with
    | nil => rfl
    | cons f rest ih =>
      have hf := h f (List.mem_cons_self f rest)
      have hrest : ∀ g ∈ rest, amapFind? args g.name = none :=
        fun g hg => h g (List.mem_cons_of_mem f hg)
      by_cases hp : f.positional = true
      · simp [CommandExecutor.substPositional, hp, hf, ih _ hrest]
      · simp [CommandExecutor.substPositional, hp, ih _ hrest]
  · intro args cmdDef inp f hmeth hinp hnd hmem hpos hargs hdef
    rw [buildBody_find_field args cmdDef inp f hmeth hinp hnd hmem hpos, hargs, hdef]

/-- C5 amended witness: the CLI endpoint builder applied at a concrete
failing input yields one of the two context errors (the cluster-id one). -/
theorem c5_amended_witness :
    lit "cluster ID required: use --cid flag or set default with runos config set cid <cluster-id>"
      = lit "account ID not set: run runos login first" ∨
    lit "cluster ID required: use --cid flag or set default with runos config set cid <cluster-id>"
      = lit "cluster ID required: use --cid flag or set default with runos config set cid <cluster-id>" :=
  c5_amended_builders_never_validate.2.1 (lit "B") (lit "/c/:cid") [] cmd5 cfgW [] _ rfl

end RunosCli
